import Mathlib

/-!
Verification of the applicant evaluation & ranking pipeline
(backend of the student-evaluation-system repository).

Shallow embedding conventions:
- Python floats are modelled as rationals (exact arithmetic).
- Python dicts used as JSON objects are association lists with last-wins
  lookup; iteration follows insertion order, as in CPython.
- Fallible Python code is modelled with Option (none = exception / None).
-/

namespace StudentEval

/-! ## app/services/scoring.py -/

/-- Python round-half-to-even of a rational to the integer grid
(the behaviour of the builtin round on exact values). -/
def pyRoundInt (x : ℚ) : ℤ :=
  if x - ⌊x⌋ < 1/2 then ⌊x⌋
  else if 1/2 < x - ⌊x⌋ then ⌊x⌋ + 1
  else if Even ⌊x⌋ then ⌊x⌋ else ⌊x⌋ + 1

/-- round(x, 4) from the source: round half to even at the 4th decimal. -/
def round4 (x : ℚ) : ℚ := (pyRoundInt (x * 10000) : ℚ) / 10000

/-- max(0.0, min(10.0, v)) from weighted_total. -/
def clampScore (v : ℚ) : ℚ := max 0 (min 10 v)

/-- One summand of weighted_total: scores of None are skipped. -/
def weightContrib (w : ℚ) (v : Option ℚ) : ℚ :=
  match v with
  | none => 0
  | some x => w * clampScore x

/-- weighted_total from app/services/scoring.py: weights english 0.10,
degree 0.50, academic 0.15, experience 0.15, ps_rl 0.10, each score
clamped to the 0..10 band, None skipped, result rounded to 4 decimals. -/
def weighted_total (english degree academic experience ps_rl : Option ℚ) : ℚ :=
  round4 (weightContrib (1/10) english + weightContrib (1/2) degree +
    weightContrib (3/20) academic + weightContrib (3/20) experience +
    weightContrib (1/10) ps_rl)

/-- is_close from app/services/scoring.py. -/
def is_close (a b : ℚ) (eps : ℚ) : Bool := |a - b| ≤ eps

/-! ## app/tasks/assessment_pipeline.py — pairwise refinement (run_pipeline)

The ranking state is the working list of (applicant id, weighted score)
pairs.  The pairwise comparator (an LLM judgment call built from the two
applicants' evaluation dicts, which stay fixed during ranking) is modelled
as an oracle mapping the two applicant ids to the winner string that
compare_agent returns: one of "A", "B", "tie". -/

/-- A PairwiseComparison row as persisted by run_pipeline. -/
structure PWRow where
  run : ℕ
  aidA : ℕ
  aidB : ℕ
  winner : String
  passIdx : ℕ
deriving DecidableEq, Repr

/-- One iteration of the adjacent-pair loop body at index i: if both
positions exist and the two weighted scores are within eps, ask the
comparator, persist a row, and swap the two SCORES in place when the
winner is the lower-scored side (ids keep their list positions). -/
def stepPair (cmp : ℕ → ℕ → String) (eps : ℚ) (run passIdx : ℕ)
    (st : List (ℕ × ℚ) × List PWRow) (i : ℕ) : List (ℕ × ℚ) × List PWRow :=
  let l := st.1
  match l.get? i, l.get? (i+1) with
  | some (a1, s1), some (a2, s2) =>
    if ¬ (is_close s1 s2 eps = true) then st
    else
      let w := cmp a1 a2
      let rows := st.2 ++ [⟨run, a1, a2, w, passIdx⟩]
      if w = "A" ∧ s1 < s2 then ((l.set i (a1, s2)).set (i+1) (a2, s1), rows)
      else if w = "B" ∧ s2 < s1 then ((l.set i (a1, s2)).set (i+1) (a2, s1), rows)
      else (l, rows)
  | _, _ => st

/-- The inner loop for i in range(len(scores) - 1). -/
def runPassAux (cmp : ℕ → ℕ → String) (eps : ℚ) (run passIdx : ℕ) :
    ℕ → ℕ → List (ℕ × ℚ) × List PWRow → List (ℕ × ℚ) × List PWRow
  | _, 0, st => st
  | i, n + 1, st => runPassAux cmp eps run passIdx (i+1) n (stepPair cmp eps run passIdx st i)

def runPassLoop (cmp : ℕ → ℕ → String) (eps : ℚ) (run passIdx : ℕ)
    (st : List (ℕ × ℚ) × List PWRow) : List (ℕ × ℚ) × List PWRow :=
  runPassAux cmp eps run passIdx 0 (st.1.length - 1) st

/-- Stable descending insertion by weighted score: the model of Python's
stable scores.sort(key=score, reverse=True). -/
def insertDesc (x : ℕ × ℚ) : List (ℕ × ℚ) → List (ℕ × ℚ)
  | [] => [x]
  | y :: ys => if y.2 < x.2 then x :: y :: ys else y :: insertDesc x ys

def sortDesc (l : List (ℕ × ℚ)) : List (ℕ × ℚ) :=
  l.foldr insertDesc []

/-- One refinement pass: sort descending, sweep the adjacent pairs, then
sort again (the pass-end re-sort that assigns dense final ranks). -/
def onePass (cmp : ℕ → ℕ → String) (eps : ℚ) (run passIdx : ℕ)
    (st : List (ℕ × ℚ) × List PWRow) : List (ℕ × ℚ) × List PWRow :=
  let st1 := runPassLoop cmp eps run passIdx (sortDesc st.1, st.2)
  (sortDesc st1.1, st1.2)

/-- The K refinement passes (for pass_idx in range(K)). -/
def refinePasses (cmp : ℕ → ℕ → String) (eps : ℚ) (run : ℕ) :
    ℕ → ℕ → List (ℕ × ℚ) × List PWRow → List (ℕ × ℚ) × List PWRow
  | _, 0, st => st
  | passIdx, k + 1, st =>
      refinePasses cmp eps run (passIdx + 1) k (onePass cmp eps run passIdx st)

/-- The whole ranking refinement of run_pipeline: first delete every
PairwiseComparison row of this run from the table, then run the K passes,
appending the freshly persisted rows. -/
def rankRun (cmp : ℕ → ℕ → String) (eps : ℚ) (run : ℕ) (K : ℕ)
    (table : List PWRow) (scores : List (ℕ × ℚ)) : List (ℕ × ℚ) × List PWRow :=
  let out := refinePasses cmp eps run 0 K (scores, [])
  (out.1, table.filter (fun r => r.run ≠ run) ++ out.2)

/-- Position of an applicant id in a ranking list. -/
def posOf (aid : ℕ) (l : List (ℕ × ℚ)) : ℕ := l.findIdx (fun p => p.1 = aid)

/-- The comparator oracle of the C1 counterexample. -/
def cexCmp : ℕ → ℕ → String := fun a b =>
  if a = 1 ∧ b = 2 then "B" else if a = 1 ∧ b = 3 then "B" else "tie"

/-- Initial weighted scores of the C1 counterexample. -/
def cexInit : List (ℕ × ℚ) := [(1, 10), (2, 49/5), (3, 191/20)]

/-! ## app/tasks/assessment_pipeline.py — gating

Each ApplicantEvaluation row carries a score and a details JSON dict; the
gating block reads only a handful of fields, modelled structurally below.
An absent evaluation row, and a details dict that is None or empty (both
falsy in exactly the same way in the source's truthiness guards), are
modelled as none. A qs_rank field is recorded only when the stored value
is an int (the isinstance check of the source); exemption records the
truthiness of details.get("exemption"). -/

structure BackgroundDetails where
  fit : Option Bool
deriving DecidableEq, Repr

structure DegreeDetails where
  meets_requirement : Option Bool
  qs_rank : Option ℤ
deriving DecidableEq, Repr

structure EnglishDetails where
  exemption : Bool
  test_overall : Option ℚ
deriving DecidableEq, Repr

structure Evaluation (δ : Type) where
  score : Option ℚ
  details : Option δ
deriving DecidableEq, Repr

structure GateEvals where
  background : Option (Evaluation BackgroundDetails)
  degree : Option (Evaluation DegreeDetails)
  english : Option (Evaluation EnglishDetails)
deriving Repr

def bgRejects (d : GateEvals) : Bool :=
  match d.background with
  | some ev => match ev.details with
    | some det => det.fit = some false
    | none => false
  | none => false

def degreeMeetsRejects (d : GateEvals) : Bool :=
  match d.degree with
  | some ev => match ev.details with
    | some det => det.meets_requirement = some false
    | none => false
  | none => false

def qsRejects (d : GateEvals) : Bool :=
  match d.degree with
  | some ev => match ev.details with
    | some det => match det.qs_rank with
      | some r => 800 < r
      | none => false
    | none => false
  | none => false

def englishRejects (d : GateEvals) : Bool :=
  match d.english with
  | some ev => match ev.details with
    | some det => !det.exemption && det.test_overall = none
    | none => false
  | none => false

def goodQS (d : GateEvals) : Bool :=
  match d.degree with
  | some ev => match ev.details with
    | some det => match det.qs_rank with
      | some r => r ≤ 100
      | none => false
    | none => false
  | none => false

/-- d["degree"].score and d["degree"].score >= 8 — a 0.0 score is falsy. -/
def strongDegree (d : GateEvals) : Bool :=
  match d.degree with
  | some ev => match ev.score with
    | some s => !(s = 0) && 8 ≤ s
    | none => false
  | none => false

/-- The gating block of run_pipeline: reject reasons accumulate in check
order; ACCEPT is considered only when no reject fired. -/
def gate (d : GateEvals) : String × List String :=
  let reasons : List String :=
    (if bgRejects d then ["Background not satisfied"] else []) ++
    (if degreeMeetsRejects d then ["Degree below requirement"] else []) ++
    (if qsRejects d then ["QS rank below threshold"] else []) ++
    (if englishRejects d then ["No English test and no exemption"] else [])
  if bgRejects d || degreeMeetsRejects d || qsRejects d || englishRejects d then
    ("REJECT", reasons)
  else if goodQS d && strongDegree d then ("ACCEPT", ["High QS and strong degree"])
  else ("MIDDLE", [])

/-- Row update used by the ApplicantGating upsert. -/
def updRow (aid : ℕ) (g : String × List String) (r : ℕ × String × List String) :
    ℕ × String × List String :=
  if r.1 = aid then (aid, g) else r

/-- The ApplicantGating upsert of run_pipeline: overwrite the existing row
for the applicant, or append a fresh one. -/
def upsertGating (tbl : List (ℕ × String × List String)) (aid : ℕ)
    (g : String × List String) : List (ℕ × String × List String) :=
  if tbl.any (fun r => r.1 == aid) then tbl.map (updRow aid g)
  else tbl ++ [(aid, g)]

/-! ## app/agents/json_utils.py — parse_agent_json

JSON values carry numbers as mantissa and decimal exponent (exact), so the
whole parsing layer is free of rational arithmetic. Python dicts produced
by json.loads keep the LAST value of a duplicated key; get is modelled by
pyGet. The strict parser models json.loads: one document, optional
surrounding whitespace, no trailing data, no leading zeros, no raw
control characters in strings (surrogate-pair combination of consecutive
unicode escapes is not modelled; no claim exercises it). -/

inductive JVal where
  | jnull
  | jbool (b : Bool)
  | jnum (mant : ℤ) (exp10 : ℤ)
  | jstr (s : String)
  | jarr (elems : List JVal)
  | jobj (members : List (String × JVal))
deriving Repr

/-- dict.get on a JSON-parsed dict: last occurrence of the key wins. -/
def pyGet (kvs : List (String × JVal)) (k : String) : Option JVal :=
  (kvs.reverse.find? (fun kv => kv.1 = k)).map (fun kv => kv.2)

def jsonWsChar (c : Char) : Bool := c = ' ' ∨ c = '\t' ∨ c = '\n' ∨ c = '\r'

def dropWs : List Char → List Char
  | c :: rest => if jsonWsChar c then dropWs rest else c :: rest
  | [] => []

def isDigitCh (c : Char) : Bool := '0' ≤ c ∧ c ≤ '9'

def spanDigits : List Char → List Char × List Char
  | c :: rest =>
    if isDigitCh c then
      let p := spanDigits rest
      (c :: p.1, p.2)
    else ([], c :: rest)
  | [] => ([], [])

def digitsVal (ds : List Char) : ℕ := ds.foldl (fun a c => a * 10 + (c.toNat - 48)) 0

def hexDigitVal (c : Char) : Option ℕ :=
  if '0' ≤ c ∧ c ≤ '9' then some (c.toNat - 48)
  else if 'a' ≤ c ∧ c ≤ 'f' then some (c.toNat - 87)
  else if 'A' ≤ c ∧ c ≤ 'F' then some (c.toNat - 55)
  else none

/-- String body after the opening quote; acc holds parsed chars reversed. -/
def parseJStr : ℕ → List Char → List Char → Option (String × List Char)
  | 0, _, _ => none
  | _ + 1, acc, '"' :: rest => some (String.mk acc.reverse, rest)
  | fuel + 1, acc, '\\' :: e :: rest =>
    match e with
    | '"' => parseJStr fuel ('"' :: acc) rest
    | '\\' => parseJStr fuel ('\\' :: acc) rest
    | '/' => parseJStr fuel ('/' :: acc) rest
    | 'b' => parseJStr fuel (Char.ofNat 8 :: acc) rest
    | 'f' => parseJStr fuel (Char.ofNat 12 :: acc) rest
    | 'n' => parseJStr fuel ('\n' :: acc) rest
    | 'r' => parseJStr fuel ('\r' :: acc) rest
    | 't' => parseJStr fuel ('\t' :: acc) rest
    | 'u' =>
      match rest with
      | a :: b :: c :: d :: r2 =>
        match hexDigitVal a, hexDigitVal b, hexDigitVal c, hexDigitVal d with
        | some va, some vb, some vc, some vd =>
          parseJStr fuel (Char.ofNat (((va * 16 + vb) * 16 + vc) * 16 + vd) :: acc) r2
        | _, _, _, _ => none
      | _ => none
    | _ => none
  | fuel + 1, acc, c :: rest =>
    if c.toNat < 32 then none else parseJStr fuel (c :: acc) rest
  | _, _, [] => none

/-- JSON number: -? (0 | [1-9][0-9]*) (. [0-9]+)? ([eE][+-]?[0-9]+)? ,
returned as mantissa and base-10 exponent. -/
def parseJNum (cs : List Char) : Option ((ℤ × ℤ) × List Char) :=
  let negp : Bool × List Char := match cs with
    | '-' :: r => (true, r)
    | _ => (false, cs)
  let ip := spanDigits negp.2
  if ip.1 = [] then none
  else if 1 < ip.1.length ∧ ip.1.head? = some '0' then none
  else
    let fp : List Char × List Char := match ip.2 with
      | '.' :: r => spanDigits r
      | _ => ([], ip.2)
    if ip.2.head? = some '.' ∧ fp.1 = [] then none
    else
      let ep : Bool × ℤ × List Char × List Char := match fp.2 with
        | 'e' :: '+' :: r | 'E' :: '+' :: r =>
          let q := spanDigits r
          (true, 1, q.1, q.2)
        | 'e' :: '-' :: r | 'E' :: '-' :: r =>
          let q := spanDigits r
          (true, -1, q.1, q.2)
        | 'e' :: r | 'E' :: r =>
          let q := spanDigits r
          (true, 1, q.1, q.2)
        | _ => (false, 1, [], fp.2)
      if ep.1 ∧ ep.2.2.1 = [] then none
      else
        let mant : ℤ := (if negp.1 then -1 else 1) * (digitsVal (ip.1 ++ fp.1) : ℤ)
        some ((mant, ep.2.1 * (digitsVal ep.2.2.1 : ℤ) - fp.1.length), ep.2.2.2)

mutual

def parseJVal : ℕ → List Char → Option (JVal × List Char)
  | 0, _ => none
  | fuel + 1, cs =>
    match dropWs cs with
    | 'n' :: 'u' :: 'l' :: 'l' :: r => some (.jnull, r)
    | 't' :: 'r' :: 'u' :: 'e' :: r => some (.jbool true, r)
    | 'f' :: 'a' :: 'l' :: 's' :: 'e' :: r => some (.jbool false, r)
    | '"' :: r => (parseJStr (r.length + 1) [] r).map (fun p => (.jstr p.1, p.2))
    | '\x7b' :: r =>
      match dropWs r with
      | '\x7d' :: r2 => some (.jobj [], r2)
      | r2 => (parseJMembers fuel r2).map (fun p => (.jobj p.1, p.2))
    | '[' :: r =>
      match dropWs r with
      | ']' :: r2 => some (.jarr [], r2)
      | r2 => (parseJElems fuel r2).map (fun p => (.jarr p.1, p.2))
    | cs2 => (parseJNum cs2).map (fun p => (.jnum p.1.1 p.1.2, p.2))

def parseJElems : ℕ → List Char → Option (List JVal × List Char)
  | 0, _ => none
  | fuel + 1, cs =>
    match parseJVal fuel cs with
    | none => none
    | some (v, r) =>
      match dropWs r with
      | ',' :: r2 => (parseJElems fuel r2).map (fun p => (v :: p.1, p.2))
      | ']' :: r2 => some ([v], r2)
      | _ => none

def parseJMembers : ℕ → List Char → Option (List (String × JVal) × List Char)
  | 0, _ => none
  | fuel + 1, cs =>
    match dropWs cs with
    | '"' :: r =>
      match parseJStr (r.length + 1) [] r with
      | none => none
      | some (k, r1) =>
        match dropWs r1 with
        | ':' :: r2 =>
          match parseJVal fuel r2 with
          | none => none
          | some (v, r3) =>
            match dropWs r3 with
            | ',' :: r4 => (parseJMembers fuel r4).map (fun p => ((k, v) :: p.1, p.2))
            | '\x7d' :: r4 => some ([(k, v)], r4)
            | _ => none
        | _ => none
    | _ => none

end

/-- json.loads: exactly one document, whitespace allowed around it. -/
def jsonLoadsL (cs : List Char) : Option JVal :=
  match parseJVal (cs.length + 1) cs with
  | some (v, rest) => if dropWs rest = [] then some v else none
  | none => none

/-- Python str.strip() whitespace set (the ASCII part). -/
def pySpace (c : Char) : Bool :=
  c = ' ' ∨ c = '\t' ∨ c = '\n' ∨ c = '\r' ∨ c = '\x0b' ∨ c = '\x0c'

def pyStripL (cs : List Char) : List Char :=
  ((cs.dropWhile pySpace).reverse.dropWhile pySpace).reverse

def dropSChars : List Char → List Char
  | 's' :: rest => dropSChars rest
  | cs => cs

/-- The leading-fence pattern of json_utils.py. The source regex is the
raw string r with two backslashes before s, so after the backticks and
the optional json it requires one LITERAL backslash character and then a
run of the letter s — not whitespace. -/
def matchFence1 : List Char → Option (List Char)
  | '`' :: '`' :: '`' :: rest =>
    match rest with
    | 'j' :: 's' :: 'o' :: 'n' :: '\\' :: r2 => some (dropSChars r2)
    | '\\' :: r2 => some (dropSChars r2)
    | _ => none
  | _ => none

/-- re.sub of the leading-fence pattern under MULTILINE: tried at the
start of the text and after every newline. -/
def sub1Go : ℕ → Bool → List Char → List Char
  | 0, _, cs => cs
  | fuel + 1, atStart, cs =>
    match cs with
    | [] => []
    | c :: rest =>
      if atStart then
        match matchFence1 (c :: rest) with
        | some r => sub1Go fuel false r
        | none => c :: sub1Go fuel (c = '\n') rest
      else c :: sub1Go fuel (c = '\n') rest

def pySub1 (cs : List Char) : List Char := sub1Go cs.length true cs

/-- The trailing-fence pattern of json_utils.py: again a LITERAL
backslash, a run of s, three backticks, then end of text or a newline
(MULTILINE dollar). -/
def matchFence2 : List Char → Option (List Char)
  | '\\' :: r =>
    match dropSChars r with
    | '`' :: '`' :: '`' :: r3 =>
      match r3 with
      | [] => some []
      | '\n' :: _ => some r3
      | _ => none
    | _ => none
  | _ => none

def sub2Go : ℕ → List Char → List Char
  | 0, cs => cs
  | fuel + 1, cs =>
    match cs with
    | [] => []
    | c :: rest =>
      match matchFence2 (c :: rest) with
      | some r => sub2Go fuel r
      | none => c :: sub2Go fuel rest

def pySub2 (cs : List Char) : List Char := sub2Go cs.length cs

/-- The brace-depth scan of the extraction branch: consumed counts chars
from the first brace; stops right after the depth returns to zero. -/
def braceScan : ℕ → ℕ → List Char → Option ℕ
  | _, _, [] => none
  | depth, n, c :: rest =>
    if c = '\x7b' then braceScan (depth + 1) (n + 1) rest
    else if c = '\x7d' then
      if depth = 1 then some (n + 1) else braceScan (depth - 1) (n + 1) rest
    else braceScan depth (n + 1) rest

/-- The cleaning steps of parse_agent_json before parsing: strip, then
the two (backslash-requiring) fence substitutions. -/
def cleanResponse (response : String) : List Char :=
  pySub2 (pySub1 (pyStripL response.toList))

/-- parse_agent_json from app/agents/json_utils.py. -/
def parse_agent_json (response : String) : Option JVal :=
  if response = "" then none
  else
    let cleaned := cleanResponse response
    if cleaned.head? = some '\x7b' then jsonLoadsL cleaned
    else
      match cleaned.findIdx? (fun c => c = '\x7b') with
      | none => none
      | some start =>
        let suffix := cleaned.drop start
        match braceScan 0 0 suffix with
        | none => none
        | some len => jsonLoadsL (suffix.take len)

/-! ## app/agents/evaluators.py — compare_agent (lines 480-515)

The two judgment-call answers (first attempt and retry) are oracle
strings; everything after them is the deterministic retry logic of the
source. -/

/-- result.get("winner") in curly-set {"A", "B", "tie"}. -/
def validWinner : JVal → Bool
  | .jobj kvs =>
    match pyGet kvs "winner" with
    | some (.jstr w) => w = "A" ∨ w = "B" ∨ w = "tie"
    | _ => false
  | _ => false

def cmpValidR : Option JVal → Bool
  | some v => validWinner v
  | none => false

def tieDefault : JVal :=
  .jobj [("winner", .jstr "tie"), ("reason", .jstr "undecided")]

/-- compare_agent: parse the first answer; on parse failure or invalid
winner parse the retry answer; if still invalid return the tie default. -/
def compare_agent (ans1 ans2 : String) : JVal :=
  let r1 := parse_agent_json ans1
  let result := if cmpValidR r1 then r1 else parse_agent_json ans2
  match result with
  | some v => if validWinner v then v else tieDefault
  | none => tieDefault

/-! ## app/agents/concurrent_evaluators.py — run_concurrent_evaluation

The five dimension coroutines are gathered with return_exceptions=True
under asyncio.wait_for with a 120 s budget. The embedding abstracts the
scheduler: each evaluator's own fate is an AgentOutcome oracle (its
returned dict, or the exception it raised), and the batch-level fate is a
BatchEnv value — completed means gather finished inside the budget,
timedOut that wait_for raised TimeoutError (wall-clock time itself is
outside the embedding), failed an unexpected error in the gather
machinery. -/

inductive AgentOutcome where
  | ok (r : List (String × JVal))
  | exc (msg ty : String)

inductive BatchEnv where
  | completed
  | timedOut
  | failed (msg : String)

/-- Insertion order of the tasks dict in the source. -/
def evalDims : List String := ["english", "degree", "experience", "ps_rl", "academic"]

/-- The per-dimension entry produced in the completed branch. -/
def entryFor (o : AgentOutcome) : List (String × JVal) :=
  match o with
  | .ok r => r
  | .exc msg ty =>
    [("error", .jstr ("Agent execution failed: " ++ msg)),
     ("exception_type", .jstr ty)]

def timeoutEntry : List (String × JVal) :=
  [("error", .jstr "Agent execution timed out after 2 minutes")]

def run_concurrent_evaluation (outcomes : String → AgentOutcome) (env : BatchEnv) :
    List (String × List (String × JVal)) :=
  match env with
  | .completed => evalDims.map (fun d => (d, entryFor (outcomes d)))
  | .timedOut => evalDims.map (fun d => (d, timeoutEntry))
  | .failed msg =>
    evalDims.map (fun d => (d, [("error", .jstr ("Concurrent execution failed: " ++ msg))]))

def hasKey (kvs : List (String × JVal)) (k : String) : Bool :=
  kvs.any (fun kv => kv.1 = k)

/-- run_pipeline persists score=None whenever the entry carries an error
key, else whatever result.get("score") holds. -/
def persistedScore (entry : List (String × JVal)) : Option JVal :=
  if hasKey entry "error" then none else pyGet entry "score"

/-! ## difflib.SequenceMatcher — the similarity measure of both
eligibility evaluators

Both evaluators call SequenceMatcher(None, x, y).ratio() on institution
names far below the 200-character autojunk threshold, so the junk
machinery is inert: isbjunk is constantly false, which makes the third
and fourth extension loops of find_longest_match dead code (their guard
conjoins isbjunk); the first two are kept. The DP over b2j and the
divide-and-conquer block collection follow the CPython source; only the
total matched size is needed, since ratio is 2*matches/(len(a)+len(b)). -/

structure MatchBlock where
  bi : ℕ
  bj : ℕ
  size : ℕ
deriving DecidableEq, Repr

/-- b2j: the ascending positions of a character in b. -/
def posListOf (b : List Char) (c : Char) : List ℕ :=
  (List.range b.length).filter (fun j => b.get? j = some c)

/-- The inner loop of find_longest_match over the positions of a[i] in b
inside the window: runs ending at (i, j) extend runs ending at
(i-1, j-1) recorded in the previous row j2prev. -/
def flmScanJs (i : ℕ) (j2prev : List (ℕ × ℕ)) :
    List ℕ → List (ℕ × ℕ) × MatchBlock → List (ℕ × ℕ) × MatchBlock
  | [], st => st
  | j :: js, st =>
    let k := (if j = 0 then 0 else ((j2prev.lookup (j - 1)).getD 0)) + 1
    let best := if st.2.size < k then ⟨i + 1 - k, j + 1 - k, k⟩ else st.2
    flmScanJs i j2prev js ((j, k) :: st.1, best)

/-- The outer loop of find_longest_match over i in the a-window. -/
def flmScanIs (a b : List Char) (blo bhi : ℕ) :
    List ℕ → List (ℕ × ℕ) → MatchBlock → MatchBlock
  | [], _, best => best
  | i :: is, j2prev, best =>
    let js := match a.get? i with
      | some c => (posListOf b c).filter (fun j => decide (blo ≤ j) && decide (j < bhi))
      | none => []
    let st := flmScanJs i j2prev js ([], best)
    flmScanIs a b blo bhi is st.1 st.2

/-- The first (non-junk) extension loop: grow the block leftwards while
the characters before it match. -/
def extendLeft (a b : List Char) (alo blo : ℕ) : ℕ → MatchBlock → MatchBlock
  | 0, m => m
  | fuel + 1, m =>
    if alo < m.bi ∧ blo < m.bj ∧ (a.get? (m.bi - 1)).isSome ∧
        a.get? (m.bi - 1) = b.get? (m.bj - 1) then
      extendLeft a b alo blo fuel ⟨m.bi - 1, m.bj - 1, m.size + 1⟩
    else m

/-- The second (non-junk) extension loop: grow the block rightwards. -/
def extendRight (a b : List Char) (ahi bhi : ℕ) : ℕ → MatchBlock → MatchBlock
  | 0, m => m
  | fuel + 1, m =>
    if m.bi + m.size < ahi ∧ m.bj + m.size < bhi ∧
        (a.get? (m.bi + m.size)).isSome ∧
        a.get? (m.bi + m.size) = b.get? (m.bj + m.size) then
      extendRight a b ahi bhi fuel ⟨m.bi, m.bj, m.size + 1⟩
    else m

def findLongestMatch (a b : List Char) (alo ahi blo bhi : ℕ) : MatchBlock :=
  let m := flmScanIs a b blo bhi (List.range' alo (ahi - alo)) [] ⟨alo, blo, 0⟩
  extendRight a b ahi bhi ahi (extendLeft a b alo blo m.bi m)

/-- Total size of all matching blocks (the recursive block collection of
get_matching_blocks; merging adjacent blocks keeps the total). -/
def matchTotal (a b : List Char) : ℕ → ℕ → ℕ → ℕ → ℕ → ℕ
  | 0, _, _, _, _ => 0
  | fuel + 1, alo, ahi, blo, bhi =>
    let m := findLongestMatch a b alo ahi blo bhi
    if m.size = 0 then 0
    else
      matchTotal a b fuel alo m.bi blo m.bj + m.size +
        matchTotal a b fuel (m.bi + m.size) ahi (m.bj + m.size) bhi

/-- SequenceMatcher(None, a, b).ratio() = 2*matches/total length. -/
def similarity (a b : String) : ℚ :=
  if a.toList.length + b.toList.length = 0 then 1
  else
    2 * (matchTotal a.toList b.toList (a.toList.length + b.toList.length + 1)
      0 a.toList.length 0 b.toList.length : ℚ) /
      (a.toList.length + b.toList.length)

/-! ## app/agents/india_eligibility.py -/

/-- str.lower() on the characters the institution tables use: ASCII
letters map down, everything else (CJK, Devanagari) is its own
lowercase. -/
def pyLowerChar (c : Char) : Char :=
  if 'A' ≤ c ∧ c ≤ 'Z' then Char.ofNat (c.toNat + 32) else c

def pyLower (s : String) : String := String.mk (s.toList.map pyLowerChar)

/-- Python's name.lower().strip() over institution names. -/
def pyLowerStrip (s : String) : String := String.mk (pyStripL (s.toList.map pyLowerChar))

/-- The loaded india_institutions.json: alias map plus the named
Category 1 sets (original-case lists; the evaluator lowers them). -/
structure IndiaData where
  aliases : List (String × String)
  category1_sets : List (String × List String)

/-- The alias pass of _normalize_institution_name. -/
def aliasLookup (data : IndiaData) (nl : String) : Option String :=
  (data.aliases.find? (fun al => nl = pyLowerStrip al.1)).map (fun al => al.2)

/-- Membership of the lowered name in one lowered set, then recovery of
the first original-case spelling. -/
def setExact (originals : List String) (nl : String) : Option String :=
  if originals.any (fun o => pyLowerStrip o = nl) then
    originals.find? (fun o => pyLowerStrip o = nl)
  else none

/-- The exact Category-1 pass (also the original-case recovery used by
the fuzzy pass). -/
def exactLookup (data : IndiaData) (nl : String) : Option String :=
  data.category1_sets.findSome? (fun s => setExact s.2 nl)

/-- The union of the lowered Category-1 sets. A Python set iterates in an
implementation-defined order; the model fixes first-occurrence order. -/
def allInstitutions (data : IndiaData) : List String :=
  (data.category1_sets.flatMap (fun s => s.2.map pyLowerStrip)).dedup

/-- The fuzzy pass: best SequenceMatcher score, accepted only above the
0.8 floor and strictly improving. -/
def fuzzyBest (names : List String) (nl : String) : ℚ × Option String :=
  names.foldl (fun best kn =>
    let sc := similarity nl kn
    if best.1 < sc ∧ 4/5 ≤ sc then (sc, some kn) else best) (0, none)

/-- _normalize_institution_name of the India evaluator: aliases at 0.95,
exact Category-1 names at 0.9, fuzzy matches at similarity × 0.8,
unrecognised names kept with 0.3. -/
def normalizeIndia (data : IndiaData) (raw : String) : String × ℚ :=
  if raw = "" then (raw, 0)
  else
    let nl := pyLowerStrip raw
    match aliasLookup data nl with
    | some canonical => (canonical, 19/20)
    | none =>
      match exactLookup data nl with
      | some original => (original, 9/10)
      | none =>
        let best := fuzzyBest (allInstitutions data) nl
        match best.2 with
        | some bm =>
          match exactLookup data bm with
          | some original => (original, best.1 * (4/5))
          | none => (raw, 3/10)
        | none => (raw, 3/10)

def classifyCategory (data : IndiaData) (canonical : String) : String :=
  if data.category1_sets.any
      (fun s => s.2.any (fun o => pyLowerStrip o = pyLowerStrip canonical)) then
    "category1"
  else "category2"

/-- One band row of INDIA_THRESHOLDS: the grading-scale keys are the
strings "10","8","7","6","4" in the source, matched against str(denom);
the model keys them by the integer denominator directly. -/
structure BandThresholds where
  scales : List (ℤ × ℚ)
  percent : ℚ

/-- INDIA_THRESHOLDS, reproduced from the source; an unknown category or
band is a KeyError (none). -/
def indiaThresholds (category band : String) : Option BandThresholds :=
  if category = "category1" then
    if band = "first" then
      some ⟨[(10, 8), (8, 13/2), (7, 6), (6, 9/2), (4, 33/10)], 65⟩
    else if band = "2:1" then
      some ⟨[(10, 15/2), (8, 6), (7, 11/2), (6, 4), (4, 3)], 60⟩
    else if band = "2:2" then
      some ⟨[(10, 13/2), (8, 11/2), (7, 5), (6, 7/2), (4, 27/10)], 55⟩
    else none
  else if category = "category2" then
    if band = "first" then
      some ⟨[(10, 17/2), (8, 7), (7, 13/2), (6, 5), (4, 18/5)], 70⟩
    else if band = "2:1" then
      some ⟨[(10, 8), (8, 13/2), (7, 6), (6, 9/2), (4, 33/10)], 65⟩
    else if band = "2:2" then
      some ⟨[(10, 7), (8, 6), (7, 11/2), (6, 4), (4, 3)], 60⟩
    else none
  else none

def to_percent (value : ℚ) (denom : Option ℤ) : ℚ :=
  match denom with
  | none => value
  | some d => value / (d : ℚ) * 100

/-- meets_threshold: exact grading-scale entry when the table has one,
otherwise the percentage conversion against the percent entry. -/
def meets_threshold (value : ℚ) (denom : Option ℤ) (t : BandThresholds) : Bool × ℚ :=
  match denom with
  | some d =>
    match t.scales.lookup d with
    | some th => (value ≥ th, th)
    | none => (to_percent value (some d) ≥ t.percent, t.percent)
  | none => (to_percent value none ≥ t.percent, t.percent)

structure IndiaCredential where
  country : String
  degree_years : ℤ
  awarding_body_recognised : Bool
  institution_raw : String
  mark_value : ℚ
  mark_scale_denominator : Option ℤ
  target_band : String

/-- The fields of the India evaluation dict used by the claims. -/
structure IndiaOutcome where
  eligible : Option Bool
  reason : String
  threshold_used : Option ℚ
  category : Option String
  institution_canonical : Option String
  confidence : ℚ

/-- IndiaEligibilityEvaluator.evaluate; none models the KeyError on an
unknown target band. -/
def evaluateIndia (data : IndiaData) (c : IndiaCredential) : Option IndiaOutcome :=
  if ¬ (pyLower c.country = "india" ∨ pyLower c.country = "in" ∨
      pyLower c.country = "भारत") then
    some ⟨some false, "not_india", none, none, none, 1⟩
  else if ¬ (3 ≤ c.degree_years ∧ c.degree_years ≤ 5) then
    some ⟨some false, "degree_years_not_3to5", none, none, none, 1⟩
  else if ¬ c.awarding_body_recognised then
    some ⟨some false, "awarding_body_not_recognised", none, none, none, 1⟩
  else
    let norm := normalizeIndia data c.institution_raw
    let category := classifyCategory data norm.1
    match indiaThresholds category c.target_band with
    | none => none
    | some t =>
      let mt := meets_threshold c.mark_value c.mark_scale_denominator t
      let conf : ℚ :=
        if category = "category1" ∧ 4/5 < norm.2 then norm.2
        else if category = "category1" then norm.2 * (9/10)
        else max (3/5) norm.2
      some ⟨some mt.1, if mt.1 then "meets_threshold" else "below_threshold",
        some mt.2, some category, some norm.1, conf⟩

/-- Modelled from the spec: the reference file data/india_institutions.json
is missing from src/ (only the evaluator that loads it is present). The
spec defines Category 1 as the elite set — Institutes of National
Importance (the IITs among them), Institutes of Eminence, NIRF-Top-100,
National Law Universities, listed autonomous institutions — and its
scenario fixes institution IIT Bombay as Category 1; the model keeps that
shape with a small representative set and an empty alias map. -/
def indiaDataModel : IndiaData :=
  ⟨[],
   [("institutes_of_national_importance", ["IIT Bombay", "IIT Delhi", "IIT Madras"]),
    ("national_law_universities", ["NLSIU Bangalore"])]⟩

/-! ## app/agents/china_eligibility.py -/

structure ChinaUni where
  canonical : String
  aliases : List String
  flag : Option String
deriving DecidableEq, Repr

/-- dict assignment lookup[key] = uni: overwrite in place, keep position. -/
def chinaInsertOver (lk : List (String × ChinaUni)) (key : String) (u : ChinaUni) :
    List (String × ChinaUni) :=
  if lk.any (fun p => p.1 = key) then
    lk.map (fun p => if p.1 = key then (key, u) else p)
  else lk ++ [(key, u)]

/-- The alias guard: if alias_key not in lookup. -/
def chinaInsertIfAbsent (lk : List (String × ChinaUni)) (key : String) (u : ChinaUni) :
    List (String × ChinaUni) :=
  if lk.any (fun p => p.1 = key) then lk else lk ++ [(key, u)]

/-- _build_institution_lookup: canonical names overwrite, aliases only
fill gaps; iteration order is dict insertion order. -/
def chinaLookup (unis : List ChinaUni) : List (String × ChinaUni) :=
  unis.foldl (fun lk u =>
    u.aliases.foldl (fun lk2 al => chinaInsertIfAbsent lk2 (pyLowerStrip al) u)
      (chinaInsertOver lk (pyLowerStrip u.canonical) u)) []

/-- _normalize_institution_name of the China evaluator: exact lookup,
then the best fuzzy match above the 0.8 floor. -/
def normalizeChina (unis : List ChinaUni) (raw : String) : Option ChinaUni :=
  if raw = "" then none
  else
    let nl := pyLowerStrip raw
    let lk := chinaLookup unis
    match lk.lookup nl with
    | some u => some u
    | none =>
      (lk.foldl (fun (b : ℚ × Option ChinaUni) p =>
        let sc := similarity nl p.1
        if b.1 < sc ∧ 4/5 ≤ sc then (sc, some p.2) else b) (0, none)).2

def listStartsWith : List Char → List Char → Bool
  | [], _ => true
  | _ :: _, [] => false
  | c :: cs, h :: hs => c = h && listStartsWith cs hs

/-- Python's substring containment keyword in text. -/
def hasSubstring (needle : List Char) : List Char → Bool
  | [] => listStartsWith needle []
  | h :: hs => listStartsWith needle (h :: hs) || hasSubstring needle hs

/-- _is_cs_tech_major. -/
def isCsTechMajor (csMajors : List String) (major : String) : Bool :=
  if major = "" then false
  else
    let ml := pyLowerStrip major
    if csMajors.any (fun m => pyLower m = ml) then true
    else
      ["computer science", "计算机科学", "software engineering", "软件工程"].any
        (fun kw => hasSubstring kw.toList ml.toList)

/-- _determine_threshold_category. -/
def determineCategory (u : ChinaUni) (csMajors : List String) (major : String) : String :=
  if u.flag = some "star_redirect" then "star_redirect"
  else if u.flag = some "double_star" then
    if isCsTechMajor csMajors major then "in_ucl_list_double_star_cs"
    else "in_ucl_list_double_star_non_cs"
  else "in_ucl_list_default"

/-- The loaded china_program_rules.yaml thresholds. -/
structure ChinaRules where
  cs_tech_majors : List String
  thresholds_default : List (String × ℚ)
  thresholds_double_star_cs : List (String × ℚ)
  thresholds_double_star_non_cs : List (String × ℚ)
  thresholds_outside : List (String × ℚ)

/-- _get_threshold. -/
def getThreshold (rules : ChinaRules) (category band : String) : Option ℚ :=
  if category = "star_redirect" then none
  else if category = "in_ucl_list_default" then rules.thresholds_default.lookup band
  else if category = "in_ucl_list_double_star_cs" then
    rules.thresholds_double_star_cs.lookup band
  else if category = "in_ucl_list_double_star_non_cs" then
    rules.thresholds_double_star_non_cs.lookup band
  else if category = "outside_ucl_list" then rules.thresholds_outside.lookup band
  else none

structure ChinaCredential where
  country : String
  degree_years : ℤ
  moe_recognized : Bool
  institution_raw : String
  major_raw : String
  mark_value : ℚ
  target_band : String

structure ChinaOutcome where
  eligible : Option Bool
  reason : String
  threshold_used : Option ℚ
  category : Option String
  institution_canonical : Option String
  confidence : ℚ

/-- The shared tail of evaluate: threshold lookup and the mark check. -/
def chinaFinish (rules : ChinaRules) (category canonical : String) (mark : ℚ)
    (band : String) (conf : ℚ) : ChinaOutcome :=
  match getThreshold rules category band with
  | none => ⟨some false, "no_threshold_found", none, some category, none, 3/10⟩
  | some th =>
    ⟨some (mark ≥ th), if mark ≥ th then "meets_threshold" else "below_threshold",
      some th, some category, some canonical, conf⟩

/-- ChinaEligibilityEvaluator.evaluate. -/
def evaluateChina (unis : List ChinaUni) (rules : ChinaRules) (c : ChinaCredential) :
    ChinaOutcome :=
  if ¬ (pyLower c.country = "china" ∨ pyLower c.country = "cn" ∨
      pyLower c.country = "中国") then
    ⟨some false, "not_china", none, none, none, 1⟩
  else if c.degree_years ≠ 4 then
    ⟨some false, "not_4_year_bachelor", none, none, none, 1⟩
  else if ¬ c.moe_recognized then
    ⟨some false, "not_moe_recognized", none, none, none, 1⟩
  else
    match normalizeChina unis c.institution_raw with
    | none =>
      chinaFinish rules "outside_ucl_list" c.institution_raw c.mark_value
        c.target_band (1/2)
    | some u =>
      if u.flag = some "star_redirect" then
        ⟨none, "redirect_to_hong_kong_rules", none, none, some u.canonical, 1⟩
      else
        chinaFinish rules (determineCategory u rules.cs_tech_majors c.major_raw)
          u.canonical c.mark_value c.target_band (9/10)

/-- Modelled from the spec: data/china_ucl_universities.json and
china_program_rules.yaml are missing from src/ (only the evaluator that
loads them is present). The spec's scenario names Tsinghua University as
a double-star institution on the UCL list; the threshold bands carry
representative percentage values consistent with the spec's scenario
(the double-star CS 2:1 threshold is at most 86). -/
def chinaUnisModel : List ChinaUni :=
  [⟨"Tsinghua University", ["tsinghua"], some "double_star"⟩]

def chinaRulesModel : ChinaRules :=
  ⟨["computer science and technology"],
   [("first", 90), ("2:1", 85), ("2:2", 80)],
   [("first", 88), ("2:1", 85), ("2:2", 80)],
   [("first", 90), ("2:1", 87), ("2:2", 82)],
   [("first", 93), ("2:1", 88), ("2:2", 83)]⟩

/-- The invariant of one j2len row: an entry (j, k) is a run of length k
ending at column j, lying in the b-window and using at most n rows. -/
def EntryInv (blo bhi n : ℕ) (p : ℕ × ℕ) : Prop :=
  blo ≤ p.1 ∧ p.1 < bhi ∧ 1 ≤ p.2 ∧ p.2 + blo ≤ p.1 + 1 ∧ p.2 ≤ n

/-- A candidate block lies inside the search window. -/
def BlockInv (alo ahi blo bhi : ℕ) (m : MatchBlock) : Prop :=
  alo ≤ m.bi ∧ m.bi + m.size ≤ ahi ∧ blo ≤ m.bj ∧ m.bj + m.size ≤ bhi

section RoundLemmas

lemma pyRoundInt_le_of_le {x y : ℚ} (h : x ≤ y) : pyRoundInt x ≤ pyRoundInt y := by
  unfold pyRoundInt
  have hfl : ⌊x⌋ ≤ ⌊y⌋ := Int.floor_le_floor h
  rcases lt_or_eq_of_le hfl with hlt | heq
  · -- different floors: round x ≤ floor x + 1 ≤ floor y ≤ round y
    split_ifs <;> omega
  · -- same floor: compare fractional parts
    rw [← heq]
    have hfrac2 : x - (⌊x⌋ : ℚ) ≤ y - (⌊x⌋ : ℚ) := by linarith
    split_ifs <;> first | omega | linarith

lemma pyRoundInt_intCast (n : ℤ) : pyRoundInt (n : ℚ) = n := by
  unfold pyRoundInt
  simp

lemma round4_mono {x y : ℚ} (h : x ≤ y) : round4 x ≤ round4 y := by
  unfold round4
  have h1 := pyRoundInt_le_of_le (x := x * 10000) (y := y * 10000) (by nlinarith)
  have h2 : ((pyRoundInt (x * 10000)) : ℚ) ≤ ((pyRoundInt (y * 10000)) : ℚ) := by
    exact_mod_cast h1
  linarith

lemma round4_zero : round4 0 = 0 := by
  have h : (0:ℚ) * 10000 = ((0:ℤ):ℚ) := by norm_num
  rw [round4, h, pyRoundInt_intCast]
  norm_num

lemma round4_ten : round4 10 = 10 := by
  have h : (10:ℚ) * 10000 = ((100000:ℤ):ℚ) := by norm_num
  rw [round4, h, pyRoundInt_intCast]
  norm_num

lemma round4_nonneg {x : ℚ} (h : 0 ≤ x) : 0 ≤ round4 x := by
  have := round4_mono h
  rw [round4_zero] at this
  exact this

lemma round4_le_ten {x : ℚ} (h : x ≤ 10) : round4 x ≤ 10 := by
  have := round4_mono h
  rw [round4_ten] at this
  exact this

lemma clampScore_nonneg (v : ℚ) : 0 ≤ clampScore v := le_max_left 0 _

lemma clampScore_le_ten (v : ℚ) : clampScore v ≤ 10 := by
  unfold clampScore
  rcases le_total 0 (min 10 v) with h | h
  · rw [max_eq_right h]; exact min_le_left _ _
  · rw [max_eq_left h]; norm_num

lemma clampScore_mono {x y : ℚ} (h : x ≤ y) : clampScore x ≤ clampScore y := by
  unfold clampScore
  exact max_le_max le_rfl (min_le_min le_rfl h)

lemma weightContrib_nonneg {w : ℚ} (hw : 0 ≤ w) (v : Option ℚ) :
    0 ≤ weightContrib w v := by
  cases v with
  | none => simp [weightContrib]
  | some x => exact mul_nonneg hw (clampScore_nonneg x)

lemma weightContrib_le {w : ℚ} (hw : 0 ≤ w) (v : Option ℚ) :
    weightContrib w v ≤ w * 10 := by
  cases v with
  | none => simp [weightContrib]; positivity
  | some x => exact mul_le_mul_of_nonneg_left (clampScore_le_ten x) hw

lemma weightContrib_mono {w x y : ℚ} (hw : 0 ≤ w) (h : x ≤ y) :
    weightContrib w (some x) ≤ weightContrib w (some y) :=
  mul_le_mul_of_nonneg_left (clampScore_mono h) hw

end RoundLemmas

/-- C4. weighted_total is bounded in the 0..10 band, monotone in every
dimension taken separately (None dimensions are skipped), and the
documented scenario weighted_total(8,7,6,9,5) evaluates to exactly 7.05. -/
theorem weighted_total_bounds_mono_eval
    (e d a x p : Option ℚ) (u v : ℚ) (huv : u ≤ v) :
    (0 ≤ weighted_total e d a x p ∧ weighted_total e d a x p ≤ 10) ∧
    (weighted_total (some u) d a x p ≤ weighted_total (some v) d a x p) ∧
    (weighted_total e (some u) a x p ≤ weighted_total e (some v) a x p) ∧
    (weighted_total e d (some u) x p ≤ weighted_total e d (some v) x p) ∧
    (weighted_total e d a (some u) p ≤ weighted_total e d a (some v) p) ∧
    (weighted_total e d a x (some u) ≤ weighted_total e d a x (some v)) ∧
    weighted_total (some 8) (some 7) (some 6) (some 9) (some 5) = 141/20 := by
  have he := weightContrib_le (w := 1/10) (by norm_num) e
  have hd := weightContrib_le (w := 1/2) (by norm_num) d
  have ha := weightContrib_le (w := 3/20) (by norm_num) a
  have hx := weightContrib_le (w := 3/20) (by norm_num) x
  have hp := weightContrib_le (w := 1/10) (by norm_num) p
  have he0 := weightContrib_nonneg (w := 1/10) (by norm_num) e
  have hd0 := weightContrib_nonneg (w := 1/2) (by norm_num) d
  have ha0 := weightContrib_nonneg (w := 3/20) (by norm_num) a
  have hx0 := weightContrib_nonneg (w := 3/20) (by norm_num) x
  have hp0 := weightContrib_nonneg (w := 1/10) (by norm_num) p
  refine ⟨⟨round4_nonneg (by linarith), round4_le_ten (by linarith)⟩, ?_, ?_, ?_, ?_, ?_, ?_⟩
  · exact round4_mono (by linarith [weightContrib_mono (w := 1/10) (by norm_num) huv])
  · exact round4_mono (by linarith [weightContrib_mono (w := 1/2) (by norm_num) huv])
  · exact round4_mono (by linarith [weightContrib_mono (w := 3/20) (by norm_num) huv])
  · exact round4_mono (by linarith [weightContrib_mono (w := 3/20) (by norm_num) huv])
  · exact round4_mono (by linarith [weightContrib_mono (w := 1/10) (by norm_num) huv])
  · have hsum : weightContrib (1/10) (some 8) + weightContrib (1/2) (some 7) +
        weightContrib (3/20) (some 6) + weightContrib (3/20) (some 9) +
        weightContrib (1/10) (some 5) = 141/20 := by
      norm_num [weightContrib, clampScore, min_def, max_def]
    have h2 : (141/20:ℚ) * 10000 = ((70500:ℤ):ℚ) := by norm_num
    rw [weighted_total, hsum, round4, h2, pyRoundInt_intCast]
    norm_num

/-- Witness for C4 at concrete inputs. -/
theorem weighted_total_bounds_mono_eval_witness :
    (0 ≤ weighted_total (some 1) (some 2) none (some 3) none ∧
      weighted_total (some 1) (some 2) none (some 3) none ≤ 10) ∧
    (weighted_total (some 3) (some 2) none (some 3) none ≤
      weighted_total (some 4) (some 2) none (some 3) none) ∧
    (weighted_total (some 1) (some 3) none (some 3) none ≤
      weighted_total (some 1) (some 4) none (some 3) none) ∧
    (weighted_total (some 1) (some 2) (some 3) (some 3) none ≤
      weighted_total (some 1) (some 2) (some 4) (some 3) none) ∧
    (weighted_total (some 1) (some 2) none (some 3) none ≤
      weighted_total (some 1) (some 2) none (some 4) none) ∧
    (weighted_total (some 1) (some 2) none (some 3) (some 3) ≤
      weighted_total (some 1) (some 2) none (some 3) (some 4)) ∧
    weighted_total (some 8) (some 7) (some 6) (some 9) (some 5) = 141/20 :=
  weighted_total_bounds_mono_eval (some 1) (some 2) none (some 3) none 3 4 (by norm_num)

/-- C1 (amended). One adjacent-pair step compares only score-close pairs:
when the two weighted scores differ by more than eps the state is
returned untouched (no comparator row, no swap); when they are close and
the winner is the lower-scored side, exactly the two scores are exchanged
in place (ids keep their positions), so the updated list is what later
pairs of the same pass read; a close pair whose winner agrees with the
score order (or ties) keeps the score list unchanged. -/
theorem stepPair_close_guard_and_score_swap
    (cmp : ℕ → ℕ → String) (eps : ℚ) (run passIdx : ℕ)
    (st : List (ℕ × ℚ) × List PWRow) (i : ℕ) (a1 a2 : ℕ) (s1 s2 : ℚ)
    (h1 : st.1.get? i = some (a1, s1)) (h2 : st.1.get? (i+1) = some (a2, s2)) :
    (is_close s1 s2 eps = false → stepPair cmp eps run passIdx st i = st) ∧
    (is_close s1 s2 eps = true →
      ((cmp a1 a2 = "A" ∧ s1 < s2) ∨ (cmp a1 a2 = "B" ∧ s2 < s1)) →
      stepPair cmp eps run passIdx st i =
        ((st.1.set i (a1, s2)).set (i+1) (a2, s1),
          st.2 ++ [⟨run, a1, a2, cmp a1 a2, passIdx⟩])) ∧
    (is_close s1 s2 eps = true →
      ¬ ((cmp a1 a2 = "A" ∧ s1 < s2) ∨ (cmp a1 a2 = "B" ∧ s2 < s1)) →
      stepPair cmp eps run passIdx st i =
        (st.1, st.2 ++ [⟨run, a1, a2, cmp a1 a2, passIdx⟩])) := by
  refine ⟨?_, ?_, ?_⟩
  · intro hfar
    simp only [stepPair, h1, h2]
    rw [if_pos]
    simp [hfar]
  · rintro hclose (⟨hw, hlt⟩ | ⟨hw, hlt⟩) <;>
    · simp only [stepPair, h1, h2, hclose, hw]
      simp +decide [hlt, not_lt.mpr (le_of_lt hlt)]
  · intro hclose hnot
    simp only [stepPair, h1, h2]
    rw [if_neg (by simp [hclose])]
    rcases Decidable.em (cmp a1 a2 = "A" ∧ s1 < s2) with hA | hA
    · exact absurd (Or.inl hA) hnot
    · rw [if_neg hA]
      rcases Decidable.em (cmp a1 a2 = "B" ∧ s2 < s1) with hB | hB
      · exact absurd (Or.inr hB) hnot
      · rw [if_neg hB]

/-- Witness for C1's amended theorem at a concrete close pair that is
swapped by a B verdict. -/
theorem stepPair_close_guard_and_score_swap_witness :
    stepPair (fun a b => if a = 1 ∧ b = 2 then "B" else "tie") (3/10) 0 0
        ([(1, 10), (2, 49/5)], []) 0 =
      (([(1, 10), (2, 49/5)].set 0 (1, 49/5)).set 1 (2, 10),
        [] ++ [⟨0, 1, 2, (fun (a b : ℕ) => if a = 1 ∧ b = 2 then "B" else "tie") 1 2, 0⟩]) :=
  (stepPair_close_guard_and_score_swap
      (fun a b => if a = 1 ∧ b = 2 then "B" else "tie") (3/10) 0 0
      ([(1, 10), (2, 49/5)], []) 0 1 2 10 (49/5) rfl rfl).2.1
    (by norm_num [is_close, abs])
    (Or.inr ⟨by norm_num, by norm_num⟩)

/-- C1 counterexample: with eps = 0.3 and two passes, applicants 1 and 3
start 0.45 apart (more than eps) with 1 ranked above 3, yet refinement
finishes with 3 ranked above 1: a chain of eps-close swaps (1 against 2
in pass 0, then 1 against 3 after 1's score dropped) reorders a pair
whose original score difference exceeds eps. -/
theorem pairwise_refinement_reorders_far_pair :
    is_close 10 (191/20) (3/10) = false ∧
    posOf 1 cexInit < posOf 3 cexInit ∧
    (rankRun cexCmp (3/10) 7 2 [] cexInit).1 = [(2, 10), (3, 49/5), (1, 191/20)] ∧
    posOf 3 (rankRun cexCmp (3/10) 7 2 [] cexInit).1 <
      posOf 1 (rankRun cexCmp (3/10) 7 2 [] cexInit).1 := by
  have hrun : (rankRun cexCmp (3/10) 7 2 [] cexInit).1 =
      [(2, 10), (3, 49/5), (1, 191/20)] := by
    norm_num +decide [rankRun, refinePasses, onePass, runPassLoop, runPassAux,
      stepPair, sortDesc, insertDesc, cexCmp, cexInit, is_close, abs]
  refine ⟨by norm_num [is_close, abs],
    by simp +decide [posOf, cexInit, List.findIdx_cons], hrun, ?_⟩
  rw [hrun]
  simp +decide [posOf, List.findIdx_cons]

section GatingLemmas

variable (aid : ℕ) (g : String × List String)

lemma map_updRow_of_not_mem {tbl : List (ℕ × String × List String)}
    (h : tbl.any (fun r => r.1 == aid) = false) : tbl.map (updRow aid g) = tbl := by
  induction tbl with
  | nil => rfl
  | cons x xs ih =>
    simp only [List.any_cons, Bool.or_eq_false_iff] at h
    simp only [List.map_cons, ih h.2, updRow]
    rw [if_neg (by simpa using h.1)]

lemma any_map_updRow (tbl : List (ℕ × String × List String)) :
    (tbl.map (updRow aid g)).any (fun r => r.1 == aid) =
      tbl.any (fun r => r.1 == aid) := by
  induction tbl with
  | nil => rfl
  | cons x xs ih =>
    simp only [List.map_cons, List.any_cons, ih, updRow]
    by_cases h : x.1 = aid <;> simp [h]

lemma map_map_updRow (tbl : List (ℕ × String × List String)) :
    (tbl.map (updRow aid g)).map (updRow aid g) = tbl.map (updRow aid g) := by
  induction tbl with
  | nil => rfl
  | cons x xs ih =>
    simp only [List.map_cons, ih, updRow]
    by_cases h : x.1 = aid <;> simp [h]

lemma filter_map_updRow (tbl : List (ℕ × String × List String)) :
    ((tbl.map (updRow aid g)).filter (fun r => r.1 == aid)).length =
      (tbl.filter (fun r => r.1 == aid)).length := by
  induction tbl with
  | nil => rfl
  | cons x xs ih =>
    simp only [List.map_cons, List.filter_cons, updRow]
    by_cases h : x.1 = aid <;> simp [h, ih]

lemma upsertGating_idem (tbl : List (ℕ × String × List String)) :
    upsertGating (upsertGating tbl aid g) aid g = upsertGating tbl aid g := by
  unfold upsertGating
  by_cases h : tbl.any (fun r => r.1 == aid)
  · rw [if_pos h, if_pos (by rw [any_map_updRow]; exact h), map_map_updRow]
  · rw [if_neg h]
    have hall : (tbl ++ [(aid, g)]).any (fun r => r.1 == aid) = true := by
      simp
    rw [if_pos hall, List.map_append,
      map_updRow_of_not_mem aid g (Bool.eq_false_iff.mpr h)]
    simp [updRow]

lemma upsertGating_count (tbl : List (ℕ × String × List String))
    (h : (tbl.filter (fun r => r.1 == aid)).length ≤ 1) :
    ((upsertGating tbl aid g).filter (fun r => r.1 == aid)).length = 1 := by
  unfold upsertGating
  by_cases hany : tbl.any (fun r => r.1 == aid)
  · rw [if_pos hany, filter_map_updRow]
    rcases List.any_eq_true.mp hany with ⟨x, hx, hxa⟩
    have : x ∈ tbl.filter (fun r => r.1 == aid) := List.mem_filter.mpr ⟨hx, hxa⟩
    have h1 : 1 ≤ (tbl.filter (fun r => r.1 == aid)).length :=
      List.length_pos.mpr (List.ne_nil_of_mem this)
    omega
  · rw [if_neg hany, List.filter_append]
    have hf : tbl.any (fun r => r.1 == aid) = false := Bool.eq_false_iff.mpr hany
    rw [List.any_eq_false] at hf
    have hnil : tbl.filter (fun r => r.1 == aid) = [] := by
      rw [List.filter_eq_nil_iff]
      exact hf
    simp [hnil]

end GatingLemmas

/-- C3. With only the five dimension results present (no background row),
gating REJECTs exactly when the Degree details carry meets_requirement
false, or a numeric institution rank above 800, or the English details
show no exemption and no recorded test score; it ACCEPTs exactly when no
reject fired, the rank is at most 100 and the Degree score is at least 8;
otherwise it yields MIDDLE. Recomputing on the same inputs upserts the
identical decision (idempotent), keeping one row per applicant. -/
theorem gate_characterization_idempotent (d : GateEvals) (hbg : d.background = none)
    (tbl : List (ℕ × String × List String)) (aid : ℕ)
    (hcount : (tbl.filter (fun r => r.1 == aid)).length ≤ 1) :
    ((gate d).1 = "REJECT" ↔
      ((d.degree.bind (fun ev => ev.details)).bind
          (fun det => det.meets_requirement) = some false ∨
        (∃ r : ℤ, (d.degree.bind (fun ev => ev.details)).bind
          (fun det => det.qs_rank) = some r ∧ 800 < r) ∨
        (∃ det, d.english.bind (fun ev => ev.details) = some det ∧
          det.exemption = false ∧ det.test_overall = none))) ∧
    ((gate d).1 = "ACCEPT" ↔
      (¬ ((d.degree.bind (fun ev => ev.details)).bind
          (fun det => det.meets_requirement) = some false ∨
        (∃ r : ℤ, (d.degree.bind (fun ev => ev.details)).bind
          (fun det => det.qs_rank) = some r ∧ 800 < r) ∨
        (∃ det, d.english.bind (fun ev => ev.details) = some det ∧
          det.exemption = false ∧ det.test_overall = none)) ∧
        (∃ r : ℤ, (d.degree.bind (fun ev => ev.details)).bind
          (fun det => det.qs_rank) = some r ∧ r ≤ 100) ∧
        (∃ s : ℚ, d.degree.bind (fun ev => ev.score) = some s ∧ 8 ≤ s))) ∧
    ((gate d).1 = "REJECT" ∨ (gate d).1 = "ACCEPT" ∨ (gate d).1 = "MIDDLE") ∧
    upsertGating (upsertGating tbl aid (gate d)) aid (gate d) =
      upsertGating tbl aid (gate d) ∧
    ((upsertGating tbl aid (gate d)).filter (fun r => r.1 == aid)).length = 1 := by
  have hbgF : bgRejects d = false := by simp [bgRejects, hbg]
  have hmeets : degreeMeetsRejects d = true ↔
      (d.degree.bind (fun ev => ev.details)).bind
        (fun det => det.meets_requirement) = some false := by
    rcases d with ⟨b, dg, e⟩
    rcases dg with _ | ev
    · simp [degreeMeetsRejects]
    · rcases ev with ⟨sc, det⟩
      rcases det with _ | det
      · simp [degreeMeetsRejects]
      · simp [degreeMeetsRejects]
  have hqs : qsRejects d = true ↔
      (∃ r : ℤ, (d.degree.bind (fun ev => ev.details)).bind
        (fun det => det.qs_rank) = some r ∧ 800 < r) := by
    rcases d with ⟨b, dg, e⟩
    rcases dg with _ | ev
    · simp [qsRejects]
    · rcases ev with ⟨sc, det⟩
      rcases det with _ | det
      · simp [qsRejects]
      · rcases det with ⟨mr, qr⟩
        rcases qr with _ | r <;> simp [qsRejects]
  have heng : englishRejects d = true ↔
      (∃ det, d.english.bind (fun ev => ev.details) = some det ∧
        det.exemption = false ∧ det.test_overall = none) := by
    rcases d with ⟨b, dg, e⟩
    rcases e with _ | ev
    · simp [englishRejects]
    · rcases ev with ⟨sc, det⟩
      rcases det with _ | det
      · simp [englishRejects]
      · rcases det with ⟨ex, tov⟩
        cases ex <;> rcases tov with _ | t <;> simp [englishRejects]
  have hgq : goodQS d = true ↔
      (∃ r : ℤ, (d.degree.bind (fun ev => ev.details)).bind
        (fun det => det.qs_rank) = some r ∧ r ≤ 100) := by
    rcases d with ⟨b, dg, e⟩
    rcases dg with _ | ev
    · simp [goodQS]
    · rcases ev with ⟨sc, det⟩
      rcases det with _ | det
      · simp [goodQS]
      · rcases det with ⟨mr, qr⟩
        rcases qr with _ | r <;> simp [goodQS]
  have hsd : strongDegree d = true ↔
      (∃ s : ℚ, d.degree.bind (fun ev => ev.score) = some s ∧ 8 ≤ s) := by
    rcases d with ⟨b, dg, e⟩
    rcases dg with _ | ev
    · simp [strongDegree]
    · rcases ev with ⟨sc, det⟩
      rcases sc with _ | s
      · simp [strongDegree]
      · simp only [strongDegree, Option.bind_some, Option.some.injEq]
        constructor
        · rintro h
          rcases Bool.and_eq_true_iff.mp h with ⟨-, h2⟩
          exact ⟨s, rfl, by simpa using h2⟩
        · rintro ⟨s', hs', h8⟩
          rcases hs'
          have hne : ¬ (s = 0) := by intro h0; rw [h0] at h8; norm_num at h8
          simp [hne, h8]
  have hrejIff : (gate d).1 = "REJECT" ↔
      (degreeMeetsRejects d || qsRejects d || englishRejects d) = true := by
    unfold gate
    rw [hbgF]
    simp only [Bool.false_or]
    by_cases h : (degreeMeetsRejects d || qsRejects d || englishRejects d) = true
    · rw [if_pos h]
      simp [h]
    · rw [if_neg h]
      by_cases hacc : (goodQS d && strongDegree d) = true
      · rw [if_pos hacc]
        simp +decide [h]
      · rw [if_neg hacc]
        simp +decide [h]
  have hPropsIff : (degreeMeetsRejects d || qsRejects d || englishRejects d) = true ↔
      ((d.degree.bind (fun ev => ev.details)).bind
          (fun det => det.meets_requirement) = some false ∨
        (∃ r : ℤ, (d.degree.bind (fun ev => ev.details)).bind
          (fun det => det.qs_rank) = some r ∧ 800 < r) ∨
        (∃ det, d.english.bind (fun ev => ev.details) = some det ∧
          det.exemption = false ∧ det.test_overall = none)) := by
    simp only [Bool.or_eq_true_iff]
    rw [hmeets, hqs, heng]
    exact or_assoc
  refine ⟨hrejIff.trans hPropsIff, ?_, ?_,
    upsertGating_idem aid (gate d) tbl, upsertGating_count aid (gate d) tbl hcount⟩
  · by_cases hrej : (degreeMeetsRejects d || qsRejects d || englishRejects d) = true
    · have hr : (gate d).1 = "REJECT" := hrejIff.mpr hrej
      rw [hr]
      constructor
      · intro h
        exact absurd h (by decide)
      · rintro ⟨hnp, -⟩
        exact absurd (hPropsIff.mp hrej) hnp
    · have hnp : ¬ ((d.degree.bind (fun ev => ev.details)).bind
          (fun det => det.meets_requirement) = some false ∨
        (∃ r : ℤ, (d.degree.bind (fun ev => ev.details)).bind
          (fun det => det.qs_rank) = some r ∧ 800 < r) ∨
        (∃ det, d.english.bind (fun ev => ev.details) = some det ∧
          det.exemption = false ∧ det.test_overall = none)) :=
        fun hp => hrej (hPropsIff.mpr hp)
      unfold gate
      rw [hbgF]
      simp only [Bool.false_or]
      rw [if_neg hrej]
      by_cases hacc : (goodQS d && strongDegree d) = true
      · rw [if_pos hacc]
        rcases Bool.and_eq_true_iff.mp hacc with ⟨hg, hs⟩
        simp only [true_iff]
        exact ⟨hnp, hgq.mp hg, hsd.mp hs⟩
      · rw [if_neg hacc]
        constructor
        · intro h
          exact absurd h (by decide)
        · rintro ⟨-, hq', hs'⟩
          exact absurd (Bool.and_eq_true_iff.mpr ⟨hgq.mpr hq', hsd.mpr hs'⟩) hacc
  · by_cases hrej : (bgRejects d || degreeMeetsRejects d || qsRejects d ||
        englishRejects d) = true
    · left
      unfold gate
      rw [if_pos hrej]
    · right
      unfold gate
      rw [if_neg hrej]
      by_cases hacc : (goodQS d && strongDegree d) = true
      · rw [if_pos hacc]; left; rfl
      · rw [if_neg hacc]; right; rfl

/-- Witness for C3 at a concrete applicant: degree rank 50 with score 9
and exempted English, no background row — gating lands in one of the
three decisions (here: ACCEPT). -/
theorem gate_characterization_idempotent_witness :
    (gate ⟨none, some ⟨some 9, some ⟨some true, some 50⟩⟩,
        some ⟨some 10, some ⟨true, none⟩⟩⟩).1 = "REJECT" ∨
    (gate ⟨none, some ⟨some 9, some ⟨some true, some 50⟩⟩,
        some ⟨some 10, some ⟨true, none⟩⟩⟩).1 = "ACCEPT" ∨
    (gate ⟨none, some ⟨some 9, some ⟨some true, some 50⟩⟩,
        some ⟨some 10, some ⟨true, none⟩⟩⟩).1 = "MIDDLE" :=
  (gate_characterization_idempotent
    ⟨none, some ⟨some 9, some ⟨some true, some 50⟩⟩, some ⟨some 10, some ⟨true, none⟩⟩⟩
    rfl [] 4 (by simp)).2.2.1

section PairwiseRowLemmas

lemma stepPair_rows_sub (cmp : ℕ → ℕ → String) (eps : ℚ) (run p : ℕ)
    (st : List (ℕ × ℚ) × List PWRow) (i : ℕ) :
    ∀ r ∈ (stepPair cmp eps run p st i).2, r ∈ st.2 ∨ r.run = run := by
  intro r hr
  simp only [stepPair] at hr
  rcases hgi : st.1.get? i with _ | p1 <;> rw [hgi] at hr
  · exact Or.inl hr
  · rcases hgj : st.1.get? (i + 1) with _ | p2 <;> rw [hgj] at hr
    · exact Or.inl hr
    · rcases p1 with ⟨a1, s1⟩
      rcases p2 with ⟨a2, s2⟩
      simp only at hr
      split_ifs at hr <;>
        first
          | exact Or.inl hr
          | (simp only [List.mem_append, List.mem_singleton] at hr
             rcases hr with hr | hr
             · exact Or.inl hr
             · right
               rw [hr])

lemma runPassAux_rows_sub (cmp : ℕ → ℕ → String) (eps : ℚ) (run p : ℕ) :
    ∀ (n i : ℕ) (st : List (ℕ × ℚ) × List PWRow),
      ∀ r ∈ (runPassAux cmp eps run p i n st).2, r ∈ st.2 ∨ r.run = run := by
  intro n
  induction n with
  | zero => intro i st r hr; exact Or.inl hr
  | succ m ih =>
    intro i st r hr
    rcases ih (i + 1) (stepPair cmp eps run p st i) r hr with h | h
    · exact stepPair_rows_sub cmp eps run p st i r h
    · exact Or.inr h

lemma refinePasses_rows_sub (cmp : ℕ → ℕ → String) (eps : ℚ) (run : ℕ) :
    ∀ (k p : ℕ) (st : List (ℕ × ℚ) × List PWRow),
      ∀ r ∈ (refinePasses cmp eps run p k st).2, r ∈ st.2 ∨ r.run = run := by
  intro k
  induction k with
  | zero => intro p st r hr; exact Or.inl hr
  | succ m ih =>
    intro p st r hr
    rcases ih (p + 1) (onePass cmp eps run p st) r hr with h | h
    · exact runPassAux_rows_sub cmp eps run p _ 0 (sortDesc st.1, st.2) r h
    · exact Or.inr h

lemma refinePasses_rows_run (cmp : ℕ → ℕ → String) (eps : ℚ) (run K : ℕ)
    (l : List (ℕ × ℚ)) :
    ∀ r ∈ (refinePasses cmp eps run 0 K (l, [])).2, r.run = run := by
  intro r hr
  rcases refinePasses_rows_sub cmp eps run K 0 (l, []) r hr with h | h
  · exact absurd h (List.not_mem_nil r)
  · exact h

lemma rankRun_preserves_other_runs (cmp : ℕ → ℕ → String) (eps : ℚ)
    (run K : ℕ) (table : List PWRow) (l : List (ℕ × ℚ)) :
    (rankRun cmp eps run K table l).2.filter (fun r => r.run ≠ run) =
      table.filter (fun r => r.run ≠ run) := by
  unfold rankRun
  simp only [List.filter_append]
  have h1 : (table.filter (fun r => decide (r.run ≠ run))).filter
      (fun r => decide (r.run ≠ run)) = table.filter (fun r => decide (r.run ≠ run)) := by
    rw [List.filter_filter]
    simp
  have h2 : (refinePasses cmp eps run 0 K (l, [])).2.filter
      (fun r => decide (r.run ≠ run)) = [] := by
    rw [List.filter_eq_nil_iff]
    intro r hr
    have := refinePasses_rows_run cmp eps run K l r hr
    simp [this]
  rw [h1, h2, List.append_nil]

lemma rankRun_rerun_replaces (cmp : ℕ → ℕ → String) (eps : ℚ)
    (run K : ℕ) (table : List PWRow) (l : List (ℕ × ℚ)) :
    rankRun cmp eps run K (rankRun cmp eps run K table l).2 l =
      rankRun cmp eps run K table l := by
  have hf := rankRun_preserves_other_runs cmp eps run K table l
  conv_lhs => rw [rankRun]
  rw [hf]
  rfl

end PairwiseRowLemmas

/-- C8 (code bug). The fence-stripping step of parse_agent_json never
removes a plain code fence: its regexes demand a literal backslash
character (the raw-string pattern doubles the backslash before s), so a
leading-brace document followed by a trailing fence fails the strict
parse and yields None even though the spec says fences are stripped. The
cleaning step is shown to leave such an input byte-identical; a
leading-fence input is recovered only by the brace extraction branch,
not by stripping. -/
theorem parse_agent_json_fences_not_stripped :
    parse_agent_json "\x7b\"score\": 6\x7d\n```" = none ∧
    cleanResponse "\x7b\"score\": 6\x7d\n```" = "\x7b\"score\": 6\x7d\n```".toList ∧
    parse_agent_json "```json\n\x7b\"score\": 6\x7d\n```" =
      some (.jobj [("score", .jnum 6 0)]) :=
  ⟨rfl, rfl, rfl⟩

/-- C10. An input already starting with the opening brace but carrying
trailing text is handed to the strict parse unchanged (the extraction
branch runs only when the cleaned text does not start with a brace), so
the strict parse fails on the trailing text and the function returns
None. -/
theorem parse_agent_json_trailing_text_none :
    parse_agent_json "\x7b\"a\": 1\x7d extra" = none ∧
    (∀ s : String, ¬ (s = "") → (cleanResponse s).head? = some '\x7b' →
      parse_agent_json s = jsonLoadsL (cleanResponse s)) := by
  refine ⟨rfl, ?_⟩
  intro s hne hhead
  simp only [parse_agent_json]
  rw [if_neg hne, if_pos hhead]

/-- Witness for C10's general branch fact at the concrete input. -/
theorem parse_agent_json_trailing_text_none_witness :
    parse_agent_json "\x7b\"a\": 1\x7d extra" =
      jsonLoadsL (cleanResponse "\x7b\"a\": 1\x7d extra") :=
  (parse_agent_json_trailing_text_none).2 "\x7b\"a\": 1\x7d extra" (by decide) rfl

/-- C9. compare_agent keeps a valid first answer (the retry answer is
never consulted), falls back to the retry answer exactly when the first
is invalid, defaults to the tie verdict when both attempts fail, and
each ranking run deletes the run's prior PairwiseComparison rows before
pass 1 — rows of other runs survive and a rerun fully replaces (never
duplicates) the run's rows. -/
theorem compare_retry_tie_default_and_log_replaced :
    (∀ ans1 ans2 v, parse_agent_json ans1 = some v → validWinner v = true →
      compare_agent ans1 ans2 = v) ∧
    (∀ ans1 ans2 v, cmpValidR (parse_agent_json ans1) = false →
      parse_agent_json ans2 = some v → validWinner v = true →
      compare_agent ans1 ans2 = v) ∧
    (∀ ans1 ans2, cmpValidR (parse_agent_json ans1) = false →
      cmpValidR (parse_agent_json ans2) = false →
      compare_agent ans1 ans2 = tieDefault) ∧
    (∀ (cmp : ℕ → ℕ → String) (eps : ℚ) (run K : ℕ) (table : List PWRow)
        (l : List (ℕ × ℚ)),
      (rankRun cmp eps run K table l).2.filter (fun r => r.run ≠ run) =
        table.filter (fun r => r.run ≠ run) ∧
      rankRun cmp eps run K (rankRun cmp eps run K table l).2 l =
        rankRun cmp eps run K table l) := by
  refine ⟨?_, ?_, ?_, fun cmp eps run K table l =>
    ⟨rankRun_preserves_other_runs cmp eps run K table l,
      rankRun_rerun_replaces cmp eps run K table l⟩⟩
  · intro a1 a2 v hp hv
    simp [compare_agent, hp, cmpValidR, hv]
  · intro a1 a2 v h1 hp hv
    simp [compare_agent, h1, hp, hv]
  · intro a1 a2 h1 h2
    rcases hp2 : parse_agent_json a2 with _ | v
    · simp [compare_agent, h1, hp2]
    · have hv : validWinner v = false := by
        rw [hp2] at h2
        simpa [cmpValidR] using h2
      simp [compare_agent, h1, hp2, hv]

/-- Witness for C9 at a concrete valid first answer. -/
theorem compare_retry_tie_default_and_log_replaced_witness :
    compare_agent "\x7b\"winner\": \"A\"\x7d" "nonsense" =
      JVal.jobj [("winner", JVal.jstr "A")] :=
  (compare_retry_tie_default_and_log_replaced).1 "\x7b\"winner\": \"A\"\x7d"
    "nonsense" (JVal.jobj [("winner", JVal.jstr "A")]) rfl rfl

section OrchestratorLemmas

lemma lookup_map_self {α : Type} (f : String → α) :
    ∀ (ds : List String) (d : String), d ∈ ds →
      (ds.map (fun x => (x, f x))).lookup d = some (f d) := by
  intro ds
  induction ds with
  | nil => intro d hd; exact absurd hd (List.not_mem_nil d)
  | cons x xs ih =>
    intro d hd
    by_cases hxd : d = x
    · subst hxd
      simp [List.lookup]
    · rcases List.mem_cons.mp hd with h | h
      · exact absurd h hxd
      · have hbeq : (d == x) = false := beq_eq_false_iff_ne.mpr hxd
        simp only [List.map_cons, List.lookup, hbeq]
        exact ih d h

lemma keys_map_self {α : Type} (f : String → α) (ds : List String) :
    (ds.map (fun x => (x, f x))).map Prod.fst = ds := by
  induction ds with
  | nil => rfl
  | cons x xs ih => simp [ih]

end OrchestratorLemmas

/-- C2. The orchestrator always yields a full map whose keys are exactly
the five dimensions, in every batch outcome; when the gather completes,
each dimension's entry is determined by that evaluator's own outcome
alone (an exception is captured as that dimension's error entry and
cannot disturb another dimension's entry); when the global timeout
fires, every evaluator still pending is reported with the timeout error
entry, which carries an error key and no score (so the pipeline persists
score=None for it). -/
theorem run_concurrent_evaluation_total_isolated_timeout
    (outcomes outcomes' : String → AgentOutcome) (env : BatchEnv) (d : String)
    (hd : d ∈ evalDims) (hsame : outcomes d = outcomes' d) :
    ((run_concurrent_evaluation outcomes env).map Prod.fst = evalDims) ∧
    ((run_concurrent_evaluation outcomes BatchEnv.completed).lookup d =
      some (entryFor (outcomes d))) ∧
    ((run_concurrent_evaluation outcomes BatchEnv.completed).lookup d =
      (run_concurrent_evaluation outcomes' BatchEnv.completed).lookup d) ∧
    ((run_concurrent_evaluation outcomes BatchEnv.timedOut).lookup d =
      some timeoutEntry) ∧
    hasKey timeoutEntry "error" = true ∧
    persistedScore timeoutEntry = none := by
  refine ⟨?_, ?_, ?_, ?_, rfl, rfl⟩
  · cases env with
    | completed =>
      simp only [run_concurrent_evaluation]
      exact keys_map_self _ evalDims
    | timedOut =>
      simp only [run_concurrent_evaluation]
      exact keys_map_self _ evalDims
    | failed msg =>
      simp only [run_concurrent_evaluation]
      exact keys_map_self _ evalDims
  · simp only [run_concurrent_evaluation]
    exact lookup_map_self (fun x => entryFor (outcomes x)) evalDims d hd
  · simp only [run_concurrent_evaluation]
    rw [lookup_map_self (fun x => entryFor (outcomes x)) evalDims d hd,
      lookup_map_self (fun x => entryFor (outcomes' x)) evalDims d hd, hsame]
  · simp only [run_concurrent_evaluation]
    exact lookup_map_self (fun _ => timeoutEntry) evalDims d hd

/-- Witness for C2: one evaluator raising does not touch another
dimension's entry, and the timeout entry is error-marked without score. -/
theorem run_concurrent_evaluation_total_isolated_timeout_witness :
    ((run_concurrent_evaluation
        (fun x => if x = "degree" then .exc "boom" "ValueError" else .ok [("score", .jnum 7 0)])
        BatchEnv.completed).map Prod.fst = evalDims) ∧
    ((run_concurrent_evaluation
        (fun x => if x = "degree" then .exc "boom" "ValueError" else .ok [("score", .jnum 7 0)])
        BatchEnv.completed).lookup "english" =
      some (entryFor ((fun x => if x = "degree"
        then AgentOutcome.exc "boom" "ValueError"
        else AgentOutcome.ok [("score", JVal.jnum 7 0)]) "english"))) ∧
    ((run_concurrent_evaluation
        (fun x => if x = "degree" then .exc "boom" "ValueError" else .ok [("score", .jnum 7 0)])
        BatchEnv.completed).lookup "english" =
      (run_concurrent_evaluation (fun _ => .ok [("score", .jnum 7 0)])
        BatchEnv.completed).lookup "english") ∧
    ((run_concurrent_evaluation
        (fun x => if x = "degree" then .exc "boom" "ValueError" else .ok [("score", .jnum 7 0)])
        BatchEnv.timedOut).lookup "english" = some timeoutEntry) ∧
    hasKey timeoutEntry "error" = true ∧
    persistedScore timeoutEntry = none :=
  run_concurrent_evaluation_total_isolated_timeout
    (fun x => if x = "degree" then .exc "boom" "ValueError" else .ok [("score", .jnum 7 0)])
    (fun _ => .ok [("score", .jnum 7 0)]) BatchEnv.completed "english"
    (by simp [evalDims]) rfl

section SimilarityBounds

lemma lookup_mem {l : List (ℕ × ℕ)} {a b : ℕ} (h : l.lookup a = some b) :
    (a, b) ∈ l := by
  induction l with
  | nil => simp [List.lookup] at h
  | cons x xs ih =>
    rcases hx : (a == x.1) with _ | _
    · simp only [List.lookup, hx] at h
      exact List.mem_cons_of_mem _ (ih h)
    · simp only [List.lookup, hx] at h
      have : a = x.1 := by simpa using hx
      rcases x with ⟨x1, x2⟩
      simp only [Option.some.injEq] at h
      subst this
      rw [h]
      exact List.mem_cons_self _ _

lemma flmScanJs_inv {alo ahi blo bhi : ℕ} (i n : ℕ) (j2prev : List (ℕ × ℕ))
    (hprev : ∀ p ∈ j2prev, EntryInv blo bhi n p)
    (hin : alo + n ≤ i) (hia : i < ahi) :
    ∀ (js : List ℕ) (st : List (ℕ × ℕ) × MatchBlock),
      (∀ j ∈ js, blo ≤ j ∧ j < bhi) →
      (∀ p ∈ st.1, EntryInv blo bhi (n + 1) p) →
      BlockInv alo ahi blo bhi st.2 →
      (∀ p ∈ (flmScanJs i j2prev js st).1, EntryInv blo bhi (n + 1) p) ∧
      BlockInv alo ahi blo bhi (flmScanJs i j2prev js st).2 := by
  intro js
  induction js with
  | nil =>
    intro st _ hst hb
    exact ⟨hst, hb⟩
  | cons j js ih =>
    intro st hjs hst hb
    have hj := hjs j (List.mem_cons_self j js)
    have hk : 1 ≤ (if j = 0 then 0 else ((j2prev.lookup (j - 1)).getD 0)) + 1 ∧
        ((if j = 0 then 0 else ((j2prev.lookup (j - 1)).getD 0)) + 1) + blo ≤ j + 1 ∧
        (if j = 0 then 0 else ((j2prev.lookup (j - 1)).getD 0)) + 1 ≤ n + 1 := by
      by_cases hj0 : j = 0
      · subst hj0
        have : blo = 0 := by omega
        simp [this]
      · rw [if_neg hj0]
        rcases hlk : j2prev.lookup (j - 1) with _ | k'
        · simp only [Option.getD_none]
          omega
        · simp only [Option.getD_some]
          have hmem := hprev _ (lookup_mem hlk)
          unfold EntryInv at hmem
          simp only at hmem
          omega
    simp only [flmScanJs]
    apply ih
    · intro j' hj'
      exact hjs j' (List.mem_cons_of_mem _ hj')
    · intro p hp
      rcases List.mem_cons.mp hp with hp | hp
      · subst hp
        exact ⟨by omega, hj.2, hk.1, hk.2.1, hk.2.2⟩
      · exact hst p hp
    · by_cases hlt : st.2.size < (if j = 0 then 0 else ((j2prev.lookup (j - 1)).getD 0)) + 1
      · rw [if_pos hlt]
        unfold BlockInv
        simp only
        omega
      · rw [if_neg hlt]
        exact hb

lemma flmScanIs_inv (a b : List Char) {alo ahi blo bhi : ℕ} :
    ∀ (is : List ℕ) (n : ℕ) (j2prev : List (ℕ × ℕ)) (best : MatchBlock),
      (∀ t i, is.get? t = some i → alo + n + t ≤ i ∧ i < ahi) →
      (∀ p ∈ j2prev, EntryInv blo bhi n p) →
      BlockInv alo ahi blo bhi best →
      BlockInv alo ahi blo bhi (flmScanIs a b blo bhi is j2prev best) := by
  intro is
  induction is with
  | nil =>
    intro n j2prev best _ _ hbest
    exact hbest
  | cons i is ih =>
    intro n j2prev best hchain hprev hbest
    have hi := hchain 0 i rfl
    simp only [flmScanIs]
    have hjs : ∀ j ∈ (match a.get? i with
        | some c => (posListOf b c).filter (fun j => decide (blo ≤ j) && decide (j < bhi))
        | none => []), blo ≤ j ∧ j < bhi := by
      rcases a.get? i with _ | c
      · intro j hj
        exact absurd hj (List.not_mem_nil j)
      · intro j hj
        have := List.of_mem_filter hj
        simp only [Bool.and_eq_true, decide_eq_true_eq] at this
        exact this
    obtain ⟨h1, h2⟩ := flmScanJs_inv i n j2prev hprev (by omega) hi.2 _ ([], best)
      hjs (by intro p hp; exact absurd hp (List.not_mem_nil p)) hbest
    exact ih (n + 1) _ _
      (fun t i' ht => by
        have := hchain (t + 1) i' (by simpa using ht)
        omega)
      h1 h2

lemma extendLeft_inv (a b : List Char) {alo ahi blo bhi : ℕ} :
    ∀ (fuel : ℕ) (m : MatchBlock), BlockInv alo ahi blo bhi m →
      BlockInv alo ahi blo bhi (extendLeft a b alo blo fuel m) := by
  intro fuel
  induction fuel with
  | zero => intro m hm; exact hm
  | succ f ih =>
    intro m hm
    simp only [extendLeft]
    split_ifs with h
    · apply ih
      unfold BlockInv at hm ⊢
      simp only
      omega
    · exact hm

lemma extendRight_inv (a b : List Char) {alo ahi blo bhi : ℕ} :
    ∀ (fuel : ℕ) (m : MatchBlock), BlockInv alo ahi blo bhi m →
      BlockInv alo ahi blo bhi (extendRight a b ahi bhi fuel m) := by
  intro fuel
  induction fuel with
  | zero => intro m hm; exact hm
  | succ f ih =>
    intro m hm
    simp only [extendRight]
    split_ifs with h
    · apply ih
      unfold BlockInv at hm ⊢
      simp only
      omega
    · exact hm

lemma findLongestMatch_inv (a b : List Char) {alo ahi blo bhi : ℕ}
    (halo : alo ≤ ahi) (hblo : blo ≤ bhi) :
    BlockInv alo ahi blo bhi (findLongestMatch a b alo ahi blo bhi) := by
  unfold findLongestMatch
  apply extendRight_inv
  apply extendLeft_inv
  refine flmScanIs_inv a b (List.range' alo (ahi - alo)) 0 [] ⟨alo, blo, 0⟩ ?_ ?_ ?_
  · intro t i ht
    rw [List.get?_eq_getElem?] at ht
    have hlt : t < ahi - alo := by
      by_contra hge
      rw [List.getElem?_eq_none] at ht
      · exact Option.noConfusion ht
      · simpa [List.length_range'] using Nat.le_of_not_lt hge
    rw [List.getElem?_range' _ _ hlt] at ht
    have hti : alo + 1 * t = i := by injection ht
    omega
  · intro p hp
    exact absurd hp (List.not_mem_nil p)
  · show alo ≤ alo ∧ alo + 0 ≤ ahi ∧ blo ≤ blo ∧ blo + 0 ≤ bhi
    omega

lemma matchTotal_le (a b : List Char) :
    ∀ (fuel alo ahi blo bhi : ℕ), alo ≤ ahi → blo ≤ bhi →
      matchTotal a b fuel alo ahi blo bhi ≤ ahi - alo ∧
      matchTotal a b fuel alo ahi blo bhi ≤ bhi - blo := by
  intro fuel
  induction fuel with
  | zero =>
    intro alo ahi blo bhi _ _
    simp [matchTotal]
  | succ f ih =>
    intro alo ahi blo bhi halo hblo
    have hinv := findLongestMatch_inv a b halo hblo
    unfold BlockInv at hinv
    simp only [matchTotal]
    split_ifs with h
    · simp
    · obtain ⟨hl1, hl2⟩ := ih alo (findLongestMatch a b alo ahi blo bhi).bi blo
        (findLongestMatch a b alo ahi blo bhi).bj hinv.1 hinv.2.2.1
      obtain ⟨hr1, hr2⟩ := ih
        ((findLongestMatch a b alo ahi blo bhi).bi + (findLongestMatch a b alo ahi blo bhi).size)
        ahi
        ((findLongestMatch a b alo ahi blo bhi).bj + (findLongestMatch a b alo ahi blo bhi).size)
        bhi hinv.2.1 hinv.2.2.2
      constructor <;> omega

lemma similarity_le_one (x y : String) : similarity x y ≤ 1 := by
  unfold similarity
  split_ifs with h
  · exact le_rfl
  · obtain ⟨h1, h2⟩ := matchTotal_le x.toList y.toList
      (x.toList.length + y.toList.length + 1) 0 x.toList.length 0 y.toList.length
      (Nat.zero_le _) (Nat.zero_le _)
    have hpos : 0 < x.toList.length + y.toList.length := Nat.pos_of_ne_zero h
    have hq : (0:ℚ) < (x.toList.length : ℚ) + (y.toList.length : ℚ) := by
      exact_mod_cast hpos
    rw [div_le_one hq]
    have hsum : 2 * matchTotal x.toList y.toList
        (x.toList.length + y.toList.length + 1) 0 x.toList.length 0 y.toList.length ≤
        x.toList.length + y.toList.length := by omega
    exact_mod_cast hsum

lemma similarity_nonneg (x y : String) : 0 ≤ similarity x y := by
  unfold similarity
  split_ifs with h
  · norm_num
  · positivity

lemma fuzzyBest_fst_le_one (nl : String) :
    ∀ (names : List String) (acc : ℚ × Option String), acc.1 ≤ 1 →
      (names.foldl (fun best kn =>
        let sc := similarity nl kn
        if best.1 < sc ∧ 4/5 ≤ sc then (sc, some kn) else best) acc).1 ≤ 1 := by
  intro names
  induction names with
  | nil => intro acc hacc; exact hacc
  | cons kn names ih =>
    intro acc hacc
    simp only [List.foldl_cons]
    apply ih
    by_cases h : acc.1 < similarity nl kn ∧ 4/5 ≤ similarity nl kn
    · rw [if_pos h]
      exact similarity_le_one nl kn
    · rw [if_neg h]
      exact hacc

end SimilarityBounds

/-- C5. meets_threshold uses the exact grading-scale entry whenever the
resolved category and band table has one for the credential's
denominator, otherwise converts the mark to a percentage
(mark / denominator * 100) against the percent entry, eligibility being
mark ≥ resolved threshold; and the IIT Bombay scenario (mark 7.6 on a
10-point scale, target first) resolves to Category 1, threshold 8.0,
eligible false with reason below_threshold. -/
theorem india_threshold_resolution_and_iit_bombay :
    (∀ (value : ℚ) (d : ℤ) (t : BandThresholds) (th : ℚ),
      t.scales.lookup d = some th →
      meets_threshold value (some d) t = (decide (value ≥ th), th)) ∧
    (∀ (value : ℚ) (d : ℤ) (t : BandThresholds),
      t.scales.lookup d = none →
      meets_threshold value (some d) t =
        (decide (value / (d : ℚ) * 100 ≥ t.percent), t.percent)) ∧
    (∀ (value : ℚ) (t : BandThresholds),
      meets_threshold value none t = (decide (value ≥ t.percent), t.percent)) ∧
    evaluateIndia indiaDataModel ⟨"India", 4, true, "IIT Bombay", 38/5, some 10, "first"⟩ =
      some ⟨some false, "below_threshold", some 8, some "category1",
        some "IIT Bombay", 9/10⟩ := by
  refine ⟨?_, ?_, ?_, ?_⟩
  · intro value d t th h
    simp only [meets_threshold, h]
  · intro value d t h
    simp only [meets_threshold, h, to_percent]
  · intro value t
    simp only [meets_threshold, to_percent]
  · have hal : aliasLookup indiaDataModel (pyLowerStrip "IIT Bombay") = none := by decide
    have hex : exactLookup indiaDataModel (pyLowerStrip "IIT Bombay") =
        some "IIT Bombay" := by decide
    have hcl : classifyCategory indiaDataModel "IIT Bombay" = "category1" := by decide
    have hth : indiaThresholds "category1" "first" =
        some ⟨[(10, 8), (8, 13/2), (7, 6), (6, 9/2), (4, 33/10)], 65⟩ := rfl
    norm_num +decide [evaluateIndia, normalizeIndia, hal, hex, hcl, hth,
      meets_threshold, List.lookup]

/-- Witness for C5's threshold clauses at the Category-1 first-class row. -/
theorem india_threshold_resolution_and_iit_bombay_witness :
    meets_threshold (38/5) (some 10)
        ⟨[(10, 8), (8, 13/2), (7, 6), (6, 9/2), (4, 33/10)], 65⟩ =
      (decide ((38/5 : ℚ) ≥ 8), 8) ∧
    meets_threshold (38/5) (some 5)
        ⟨[(10, 8), (8, 13/2), (7, 6), (6, 9/2), (4, 33/10)], 65⟩ =
      (decide ((38/5 : ℚ) / ((5:ℤ) : ℚ) * 100 ≥ 65), 65) ∧
    meets_threshold 70 none ⟨[(10, 8), (8, 13/2), (7, 6), (6, 9/2), (4, 33/10)], 65⟩ =
      (decide ((70:ℚ) ≥ 65), 65) :=
  ⟨(india_threshold_resolution_and_iit_bombay).1 (38/5) 10 _ 8 rfl,
   (india_threshold_resolution_and_iit_bombay).2.1 (38/5) 5 _ rfl,
   (india_threshold_resolution_and_iit_bombay).2.2.1 70 _⟩

/-- C7. A China credential whose country passes the China gate but whose
degree length is not 4 years is rejected as not_4_year_bachelor whatever
the institution table, rules, major, mark or band. -/
theorem china_not_4_year_rejects (unis : List ChinaUni) (rules : ChinaRules)
    (c : ChinaCredential)
    (hcountry : pyLower c.country = "china" ∨ pyLower c.country = "cn" ∨
      pyLower c.country = "中国")
    (hyears : c.degree_years ≠ 4) :
    evaluateChina unis rules c =
      ⟨some false, "not_4_year_bachelor", none, none, none, 1⟩ := by
  unfold evaluateChina
  rw [if_neg (not_not_intro hcountry), if_pos hyears]

/-- Witness for C7: a 3-year China credential at a listed institution. -/
theorem china_not_4_year_rejects_witness :
    evaluateChina chinaUnisModel chinaRulesModel
        ⟨"China", 3, true, "Tsinghua University", "Computer Science and Technology",
          90, "first"⟩ =
      ⟨some false, "not_4_year_bachelor", none, none, none, 1⟩ :=
  china_not_4_year_rejects chinaUnisModel chinaRulesModel _
    (Or.inl (by decide)) (by decide)

/-- C6 counterexample: the raw name tsinghual is not an exact key of the
China lookup and fuzzy-resolves to Tsinghua University with similarity
16/17, yet the evaluation carries confidence 0.9 — not the claimed
similarity × 0.8 (which would be 64/85). -/
theorem china_fuzzy_confidence_not_similarity_scaled :
    (chinaLookup chinaUnisModel).lookup (pyLowerStrip "tsinghual") = none ∧
    similarity (pyLowerStrip "tsinghual") "tsinghua" = 16/17 ∧
    normalizeChina chinaUnisModel "tsinghual" =
      some ⟨"Tsinghua University", ["tsinghua"], some "double_star"⟩ ∧
    (evaluateChina chinaUnisModel chinaRulesModel
      ⟨"China", 4, true, "tsinghual", "", 86, "2:1"⟩).confidence = 9/10 ∧
    ¬ ((9:ℚ)/10 = (16/17) * (4/5)) := by
  have hpl : pyLowerStrip "tsinghual" = "tsinghual" := by decide
  have hs1 : similarity (pyLowerStrip "tsinghual") "tsinghua university" = 4/7 := by
    have hm : matchTotal "tsinghual".toList "tsinghua university".toList
        ("tsinghual".toList.length + "tsinghua university".toList.length + 1)
        0 "tsinghual".toList.length 0 "tsinghua university".toList.length = 8 := by decide
    rw [hpl]
    unfold similarity
    rw [hm]
    norm_num
  have hs2 : similarity (pyLowerStrip "tsinghual") "tsinghua" = 16/17 := by
    have hm : matchTotal "tsinghual".toList "tsinghua".toList
        ("tsinghual".toList.length + "tsinghua".toList.length + 1)
        0 "tsinghual".toList.length 0 "tsinghua".toList.length = 8 := by decide
    rw [hpl]
    unfold similarity
    rw [hm]
    norm_num
  have hlk : chinaLookup chinaUnisModel =
      [("tsinghua university", ⟨"Tsinghua University", ["tsinghua"], some "double_star"⟩),
       ("tsinghua", ⟨"Tsinghua University", ["tsinghua"], some "double_star"⟩)] := by decide
  have hnone : (chinaLookup chinaUnisModel).lookup (pyLowerStrip "tsinghual") = none := by
    decide
  have hn : normalizeChina chinaUnisModel "tsinghual" =
      some ⟨"Tsinghua University", ["tsinghua"], some "double_star"⟩ := by
    norm_num +decide [normalizeChina, hlk, hnone, hs1, hs2]
  have hth : getThreshold chinaRulesModel "in_ucl_list_double_star_non_cs" "2:1" =
      some 87 := rfl
  refine ⟨hnone, hs2, hn, ?_, by norm_num⟩
  norm_num +decide [evaluateChina, hn, determineCategory, isCsTechMajor, chinaFinish, hth]

/-- C6 (amended). Institution resolution is idempotent in both
evaluators — resolving an already-canonical name returns that same
canonical name — but the similarity × 0.8 penalty exists only on the
India side: India assigns 0.9 to exact Category-1 names, similarity ×
0.8 (< 0.9 always) to fuzzy matches and keeps unresolved names at 0.3;
the China evaluator does not similarity-scale: a resolved institution,
exact or fuzzy, is reported under its canonical name at confidence 0.9
when it carries no star-redirect flag and a threshold is found, the
star-redirect path returns the canonical name at confidence 1.0, the
missing-threshold path returns no_threshold_found at 0.3, and an
unresolved name is kept as canonical at 0.5. -/
theorem institution_resolution_confidence_rules :
    (∀ (data : IndiaData) (raw : String), raw ≠ "" →
      aliasLookup data (pyLowerStrip raw) = none →
      ∀ canonical, exactLookup data (pyLowerStrip raw) = some canonical →
      normalizeIndia data raw = (canonical, 9/10)) ∧
    (∀ (data : IndiaData) (raw : String) (s : ℚ) (bm original : String), raw ≠ "" →
      aliasLookup data (pyLowerStrip raw) = none →
      exactLookup data (pyLowerStrip raw) = none →
      fuzzyBest (allInstitutions data) (pyLowerStrip raw) = (s, some bm) →
      exactLookup data bm = some original →
      normalizeIndia data raw = (original, s * (4/5))) ∧
    (∀ (data : IndiaData) (raw : String), raw ≠ "" →
      aliasLookup data (pyLowerStrip raw) = none →
      exactLookup data (pyLowerStrip raw) = none →
      (fuzzyBest (allInstitutions data) (pyLowerStrip raw)).2 = none →
      normalizeIndia data raw = (raw, 3/10)) ∧
    (∀ (names : List String) (nl : String),
      (fuzzyBest names nl).1 * (4/5) < 9/10) ∧
    (∀ (unis : List ChinaUni) (raw : String) (u : ChinaUni), raw ≠ "" →
      (chinaLookup unis).lookup (pyLowerStrip raw) = some u →
      normalizeChina unis raw = some u) ∧
    (∀ (unis : List ChinaUni) (rules : ChinaRules) (c : ChinaCredential)
        (u : ChinaUni) (th : ℚ),
      pyLower c.country = "china" → c.degree_years = 4 → c.moe_recognized = true →
      normalizeChina unis c.institution_raw = some u →
      ¬ (u.flag = some "star_redirect") →
      getThreshold rules (determineCategory u rules.cs_tech_majors c.major_raw)
        c.target_band = some th →
      (evaluateChina unis rules c).confidence = 9/10 ∧
      (evaluateChina unis rules c).institution_canonical = some u.canonical) ∧
    (∀ (unis : List ChinaUni) (rules : ChinaRules) (c : ChinaCredential)
        (u : ChinaUni),
      pyLower c.country = "china" → c.degree_years = 4 → c.moe_recognized = true →
      normalizeChina unis c.institution_raw = some u →
      u.flag = some "star_redirect" →
      evaluateChina unis rules c =
        ⟨none, "redirect_to_hong_kong_rules", none, none, some u.canonical, 1⟩) ∧
    (∀ (unis : List ChinaUni) (rules : ChinaRules) (c : ChinaCredential)
        (u : ChinaUni),
      pyLower c.country = "china" → c.degree_years = 4 → c.moe_recognized = true →
      normalizeChina unis c.institution_raw = some u →
      ¬ (u.flag = some "star_redirect") →
      getThreshold rules (determineCategory u rules.cs_tech_majors c.major_raw)
        c.target_band = none →
      evaluateChina unis rules c =
        ⟨some false, "no_threshold_found", none,
          some (determineCategory u rules.cs_tech_majors c.major_raw), none, 3/10⟩) ∧
    (∀ (unis : List ChinaUni) (rules : ChinaRules) (c : ChinaCredential) (th : ℚ),
      pyLower c.country = "china" → c.degree_years = 4 → c.moe_recognized = true →
      normalizeChina unis c.institution_raw = none →
      getThreshold rules "outside_ucl_list" c.target_band = some th →
      (evaluateChina unis rules c).confidence = 1/2 ∧
      (evaluateChina unis rules c).institution_canonical = some c.institution_raw) := by
  refine ⟨?_, ?_, ?_, ?_, ?_, ?_, ?_, ?_, ?_⟩
  · intro data raw hraw hal canonical hex
    simp only [normalizeIndia]
    rw [if_neg hraw]
    simp only [hal, hex]
  · intro data raw s bm original hraw hal hex hfz hex2
    simp only [normalizeIndia]
    rw [if_neg hraw]
    simp only [hal, hex, hfz, hex2]
  · intro data raw hraw hal hex hfz
    simp only [normalizeIndia]
    rw [if_neg hraw]
    simp only [hal, hex, hfz]
  · intro names nl
    have hle : (fuzzyBest names nl).1 ≤ 1 := by
      unfold fuzzyBest
      exact fuzzyBest_fst_le_one nl names (0, none) (by norm_num)
    nlinarith [hle]
  · intro unis raw u hraw hlk
    simp only [normalizeChina]
    rw [if_neg hraw]
    simp only [hlk]
  · intro unis rules c u th hc h4 hm hn hflag hth
    unfold evaluateChina
    rw [if_neg (not_not_intro (Or.inl hc)), if_neg (not_not_intro h4),
      if_neg (not_not_intro hm)]
    simp only [hn]
    rw [if_neg hflag]
    refine ⟨?_, ?_⟩ <;> simp only [chinaFinish, hth]
  · intro unis rules c u hc h4 hm hn hflag
    unfold evaluateChina
    rw [if_neg (not_not_intro (Or.inl hc)), if_neg (not_not_intro h4),
      if_neg (not_not_intro hm)]
    simp only [hn]
    rw [if_pos hflag]
  · intro unis rules c u hc h4 hm hn hflag hth
    unfold evaluateChina
    rw [if_neg (not_not_intro (Or.inl hc)), if_neg (not_not_intro h4),
      if_neg (not_not_intro hm)]
    simp only [hn]
    rw [if_neg hflag]
    simp only [chinaFinish, hth]
  · intro unis rules c th hc h4 hm hn hth
    unfold evaluateChina
    rw [if_neg (not_not_intro (Or.inl hc)), if_neg (not_not_intro h4),
      if_neg (not_not_intro hm)]
    simp only [hn]
    simp only [chinaFinish, hth]
    simp

/-- Witness for C6's amended theorem: resolving the already-canonical
name IIT Bombay returns the same name at confidence 0.9 in the India
evaluator, and resolving the already-canonical name Tsinghua University
returns that university's own record in the China evaluator. -/
theorem institution_resolution_confidence_rules_witness :
    normalizeIndia indiaDataModel "IIT Bombay" = ("IIT Bombay", 9/10) ∧
    normalizeChina chinaUnisModel "Tsinghua University" =
      some ⟨"Tsinghua University", ["tsinghua"], some "double_star"⟩ :=
  ⟨(institution_resolution_confidence_rules).1 indiaDataModel "IIT Bombay"
      (by decide) (by decide) "IIT Bombay" (by decide),
    (institution_resolution_confidence_rules).2.2.2.2.1 chinaUnisModel
      "Tsinghua University" ⟨"Tsinghua University", ["tsinghua"], some "double_star"⟩
      (by decide) (by decide)⟩

end StudentEval
